import Mathlib

/-!
Shallow embedding of the core of the 31database storage engine
(src/page.rs, src/btree.rs, src/table.rs) and verification of its
specification claims.

Machine integers (u8, u16, u64) are modelled as Nat with explicit
truncation (% 256, % 2^16, % 2^64) at the points where the source
performs an `as` cast or writes bytes.  A page's 4096-byte buffer is
modelled as a total function from byte index to byte value.  The
backing device is a page-granular store (all I/O in the source reads
and writes whole pages at offsets count * PAGE_SIZE).  Fallible
operations return an explicit outcome: `ok`, `err` (an I/O error /
not-found, the `Err` of `IOResult`), `crash` (a Rust panic: `unwrap`,
slice out of bounds, `BTreeMap` indexing with a missing key), or
`nofuel` (an a-priori loop bound was exhausted; the source loop is
unbounded).
-/

/-- PAGE_SIZE from src/page.rs. -/
def PAGE_SIZE : Nat := 4096

/-- BITMAP_MANAGED_SIZE = PAGE_SIZE * 8 from src/page.rs. -/
def BITMAP_MANAGED_SIZE : Nat := PAGE_SIZE * 8

def PAGE_TYPEID_BTREE_INTERNAL : Nat := 1
def PAGE_TYPEID_BTREE_LEAF : Nat := 2
def PAGE_TYPEID_CONTENT : Nat := 3
def PAGE_TYPEID_OVERFLOW : Nat := 4

/-- OVERFLOWPAGE_AVAILABLE_SIZE = PAGE_SIZE - 3 from src/page.rs. -/
def OVERFLOWPAGE_AVAILABLE_SIZE : Nat := PAGE_SIZE - 3

/-- OVERFLOWED_OVERFLOWPAGE_AVAILABLE_SIZE = PAGE_SIZE - 3 - 8 from src/page.rs. -/
def OVERFLOWED_OVERFLOWPAGE_AVAILABLE_SIZE : Nat := PAGE_SIZE - 3 - 8

/-- MAX_IDS = PAGE_SIZE / (8 + 8) - 1 from src/btree.rs. -/
def MAX_IDS : Nat := PAGE_SIZE / (8 + 8) - 1

/-- UNIT_SIZE = 8 + 8 from src/btree.rs. -/
def UNIT_SIZE : Nat := 8 + 8

/-- Big-endian byte decomposition of a u64 (u64::to_be_bytes). -/
def u64ToBe (x : Nat) : List Nat :=
  [x / 2^56 % 256, x / 2^48 % 256, x / 2^40 % 256, x / 2^32 % 256,
   x / 2^24 % 256, x / 2^16 % 256, x / 2^8 % 256, x % 256]

/-- Big-endian reconstruction of a u64 from bytes (u64::from_be_bytes). -/
def u64FromBe (l : List Nat) : Nat :=
  l.foldl (fun acc b => acc * 256 + b) 0

/-- Big-endian byte decomposition of a u16 (u16::to_be_bytes). -/
def u16ToBe (x : Nat) : List Nat := [x / 256 % 256, x % 256]

/-- Big-endian reconstruction of a u16 from two bytes (u16::from_be_bytes). -/
def u16FromBe (l : List Nat) : Nat := l.foldl (fun acc b => acc * 256 + b) 0

/-- A 4096-byte page buffer, byte index to byte value. -/
def PageData : Type := Nat → Nat

/-- The all-zero buffer ([0; PAGE_SIZE]). -/
def zeroData : PageData := fun _ => 0

/-- copy_from_slice of a byte list into a buffer at a given start offset.
Values are truncated to bytes, as storing into a [u8] does. -/
def writeBytes (p : PageData) (start : Nat) (bs : List Nat) : PageData :=
  fun i => if start ≤ i ∧ i < start + bs.length then bs.getD (i - start) 0 % 256 else p i

/-- Read len bytes starting at an offset from a buffer. -/
def readBytes (p : PageData) (start len : Nat) : List Nat :=
  (List.range len).map (fun i => p (start + i))

/-- Outcome of an operation: success, an Err from an IOResult, a Rust
panic, or exhaustion of the fuel bound used to model an unbounded
source loop. -/
inductive ROut (α : Type) where
  | ok : α → ROut α
  | err : ROut α
  | crash : ROut α
  | nofuel : ROut α
deriving DecidableEq

/-- True iff the outcome is a success. -/
def ROut.isOk {α : Type} : ROut α → Bool
  | .ok _ => true
  | _ => false

/-- PageType from src/page.rs. -/
inductive PageType where
  | general
  | btreePage
  | bitmapPage
  | contentPage
  | overflowPage
deriving DecidableEq

/-- Page from src/page.rs.  `data` is the 4096-byte buffer; `syncd`
is the clean/dirty flag. -/
structure Page where
  page_type : PageType
  count : Nat
  syncd : Bool
  data : PageData

/-- Page::new: zero-filled, dirty. -/
def Page.new (count : Nat) (page_type : PageType) : Page :=
  { page_type := page_type, count := count, syncd := false, data := zeroData }

/-- The backing device, page-granular: a page count maps to the bytes
stored at offset count * PAGE_SIZE, if that page has ever been written. -/
def Device : Type := Nat → Option PageData

/-- PageManage from src/page.rs together with the `&mut D` device that
every operation threads alongside it. -/
structure PageManage where
  pages : Nat → Option Page
  cache_size : Nat
  cache_pages : List Nat
  device : Device

/-- Replace the page stored under a count, modelling a mutation through
the shared Rc<RefCell<Page>> handle held in the map. -/
def PageManage.updatePage (st : PageManage) (c : Nat) (f : Page → Page) : PageManage :=
  { st with pages := fun k => if k = c then (st.pages c).map f else st.pages k }

/-- Page::load from src/page.rs: read PAGE_SIZE bytes at count * PAGE_SIZE. -/
def Page.loadDev (dev : Device) (count : Nat) : ROut Page :=
  match dev count with
  | some d => .ok { page_type := .general, count := count, syncd := true, data := d }
  | none => .err

/-- Page::sync from src/page.rs: write the buffer back if dirty. -/
def Page.syncDev (p : Page) (dev : Device) : Page × Device :=
  if p.syncd then (p, dev)
  else ({ p with syncd := true }, fun c => if c = p.count then some p.data else dev c)

/-- Page::modify from src/page.rs: replace the data, mark dirty. -/
def Page.modifyData (p : Page) (d : PageData) : Page :=
  { p with data := d, syncd := false }

/-- BitmapPage from src/page.rs. -/
structure BitmapPage where
  page : Page

/-- BitmapPage::new. -/
def BitmapPage.new (count : Nat) : BitmapPage :=
  { page := Page.new count .bitmapPage }

/-- BitmapPage::get_used: data[byte] >> (7 - bit) << 7 != 0, in u8
arithmetic. -/
def BitmapPage.get_used (b : BitmapPage) (count : Nat) : Bool :=
  let byte := count / 8
  let bit := count % 8
  ((b.page.data byte >>> (7 - bit)) <<< 7) % 256 ≠ 0

/-- BitmapPage::set_used: data[byte] |= 1 << (7 - bit). -/
def BitmapPage.set_used (b : BitmapPage) (count : Nat) : BitmapPage :=
  let byte := count / 8
  let bit := count % 8
  { page := { b.page with
      data := fun i => if i = byte then (b.page.data byte) ||| (1 <<< (7 - bit)) else b.page.data i } }

/-- BitmapPage::set_unused: data[byte] &= !(1 << (7 - bit)), with the
u8 complement written as 255 ^ mask. -/
def BitmapPage.set_unused (b : BitmapPage) (count : Nat) : BitmapPage :=
  let byte := count / 8
  let bit := count % 8
  { page := { b.page with
      data := fun i => if i = byte then (b.page.data byte) &&& (255 ^^^ (1 <<< (7 - bit))) else b.page.data i } }

/-- Inner loop of BitmapPage::find_unused: the first j in 0..8 whose
bit at position i*8+j is clear. -/
def BitmapPage.findUnusedInByte (b : BitmapPage) (i : Nat) : Option Nat :=
  (List.range 8).findSome? (fun j =>
    let position := i * 8 + j
    if ¬ b.get_used position then some position else none)

/-- Outer loop of BitmapPage::find_unused, scanning bytes i, i+1, ...
with `remaining` bytes left to visit. -/
def BitmapPage.findUnusedFrom (b : BitmapPage) (i : Nat) : Nat → Option Nat
  | 0 => none
  | remaining + 1 =>
    if b.page.data i ≠ 255 then
      match b.findUnusedInByte i with
      | some position => some position
      | none => b.findUnusedFrom (i + 1) remaining
    else b.findUnusedFrom (i + 1) remaining

/-- BitmapPage::find_unused: scan all PAGE_SIZE bytes, skipping bytes
equal to 255, and return the first clear bit position. -/
def BitmapPage.find_unused (b : BitmapPage) : Option Nat :=
  b.findUnusedFrom 0 PAGE_SIZE

/-- PageManage::limit_cache: when the queue has reached cache_size,
flush the oldest entry (looked up in the map by indexing, which panics
if absent) and drop it from map and queue. -/
def PageManage.limit_cache (st : PageManage) : ROut Unit × PageManage :=
  if st.cache_pages.length ≥ st.cache_size then
    match st.cache_pages.head? with
    | none => (.crash, st)
    | some c0 =>
      match st.pages c0 with
      | none => (.crash, st)
      | some p =>
        let dev1 := (p.syncDev st.device).2
        (.ok (), { st with
          pages := fun k => if k = c0 then none else st.pages k,
          cache_pages := st.cache_pages.tail,
          device := dev1 })
  else (.ok (), st)

/-- PageManage::get: return the cached page, otherwise evict if needed,
load from the device (Err when the page was never written) and cache it. -/
def PageManage.get (st : PageManage) (page_count : Nat) : ROut Page × PageManage :=
  match st.pages page_count with
  | some p => (.ok p, st)
  | none =>
    match st.limit_cache with
    | (.ok _, st1) =>
      match Page.loadDev st1.device page_count with
      | .ok p =>
        (.ok p, { st1 with
          pages := fun k => if k = page_count then some p else st1.pages k,
          cache_pages := st1.cache_pages ++ [page_count] })
      | _ => (.err, st1)
    | (r, st1) =>
      match r with
      | .crash => (.crash, st1)
      | .nofuel => (.nofuel, st1)
      | _ => (.err, st1)

/-- PageManage::alloc_with_count: make a zero page under the given
count without consulting bitmaps, evicting first if needed. -/
def PageManage.alloc_with_count (st : PageManage) (count : Nat) (page_type : PageType) :
    ROut Page × PageManage :=
  match st.limit_cache with
  | (.ok _, st1) =>
    let p := Page.new count page_type
    (.ok p, { st1 with
      pages := fun k => if k = count then some p else st1.pages k,
      cache_pages := st1.cache_pages ++ [count] })
  | (r, st1) =>
    match r with
    | .crash => (.crash, st1)
    | .nofuel => (.nofuel, st1)
    | _ => (.err, st1)

/-- PageManage::modify: resolve the page through get (propagating its
failure) and replace its data through the shared handle. -/
def PageManage.modify (st : PageManage) (page_count : Nat) (d : PageData) :
    ROut Unit × PageManage :=
  match st.get page_count with
  | (.ok _, st1) => (.ok (), st1.updatePage page_count (fun p => p.modifyData d))
  | (.err, st1) => (.err, st1)
  | (.crash, st1) => (.crash, st1)
  | (.nofuel, st1) => (.nofuel, st1)

/-- A modify whose IOResult the caller discards with `;` (btree.rs and
table.rs do this): an Err is swallowed, a panic still aborts. -/
def PageManage.modifyDrop (st : PageManage) (page_count : Nat) (d : PageData) :
    ROut Unit × PageManage :=
  match st.modify page_count d with
  | (.err, st1) => (.ok (), st1)
  | r => r

/-- Loop body of PageManage::find_unused_page, one bitmap page per
fuel step: obtain the bitmap page at bitmap_count (materializing it
when absent), set bit 0, scan for a free bit, mark and persist it,
else advance to the next bitmap page. -/
def PageManage.find_unused_page_from (st : PageManage) (bitmap_count : Nat) :
    Nat → ROut Nat × PageManage
  | 0 => (.nofuel, st)
  | fuel + 1 =>
    let step : ROut Page × PageManage :=
      match st.get bitmap_count with
      | (.ok p, st1) => (.ok p, st1)
      | (.err, st1) => st1.alloc_with_count bitmap_count .bitmapPage
      | (.crash, st1) => (.crash, st1)
      | (.nofuel, st1) => (.nofuel, st1)
    match step with
    | (.ok p, st1) =>
      let bp := BitmapPage.set_used { page := p } 0
      match bp.find_unused with
      | some count =>
        let bp1 := bp.set_used count
        match st1.modify bitmap_count bp1.page.data with
        | (.ok _, st2) => (.ok (count + bitmap_count), st2)
        | (.err, st2) => (.err, st2)
        | (.crash, st2) => (.crash, st2)
        | (.nofuel, st2) => (.nofuel, st2)
      | none =>
        st1.find_unused_page_from (bitmap_count + (BITMAP_MANAGED_SIZE + 1)) fuel
    | (.err, st1) => (.err, st1)
    | (.crash, st1) => (.crash, st1)
    | (.nofuel, st1) => (.nofuel, st1)

/-- PageManage::find_unused_page: scan bitmap pages from count 0. -/
def PageManage.find_unused_page (st : PageManage) (fuel : Nat) : ROut Nat × PageManage :=
  st.find_unused_page_from 0 fuel

/-- PageManage::alloc: evict if needed, pick the lowest free count via
the bitmaps, and cache a fresh zero page under it. -/
def PageManage.alloc (st : PageManage) (fuel : Nat) (page_type : PageType) :
    ROut Page × PageManage :=
  match st.limit_cache with
  | (.ok _, st1) =>
    match st1.find_unused_page fuel with
    | (.ok count, st2) =>
      let p := Page.new count page_type
      (.ok p, { st2 with
        pages := fun k => if k = count then some p else st2.pages k,
        cache_pages := st2.cache_pages ++ [count] })
    | (.err, st2) => (.err, st2)
    | (.crash, st2) => (.crash, st2)
    | (.nofuel, st2) => (.nofuel, st2)
  | (r, st1) =>
    match r with
    | .crash => (.crash, st1)
    | .nofuel => (.nofuel, st1)
    | _ => (.err, st1)

/-- PageManage::release: drop the in-memory entry (but not its cache
queue slot), then overwrite the governing bitmap page with the data of
a freshly constructed all-zero BitmapPage in which only the released
count's bit has been cleared (a no-op on zero).  The get of the bitmap
page is unwrapped: an Err panics. -/
def PageManage.release (st : PageManage) (page_count : Nat) : ROut Unit × PageManage :=
  let st0 : PageManage :=
    { st with pages := fun k => if k = page_count then none else st.pages k }
  let bitmap_count := page_count / (BITMAP_MANAGED_SIZE + 1) * (BITMAP_MANAGED_SIZE + 1)
  match st0.get bitmap_count with
  | (.ok _, st1) =>
    let bitmap := (BitmapPage.new bitmap_count).set_unused (page_count % (BITMAP_MANAGED_SIZE + 1))
    (.ok (), st1.updatePage bitmap_count (fun p => p.modifyData bitmap.page.data))
  | (.err, st1) => (.crash, st1)
  | (.crash, st1) => (.crash, st1)
  | (.nofuel, st1) => (.nofuel, st1)

/-- PageManage::find_page_by_type, one scanned count per fuel step:
skip counts with page_count % BITMAP_MANAGED_SIZE + 1 == 0 (a condition
that, by precedence, reads (c % 32768) + 1 == 0), return an existing
page whose byte 0 equals the tag, and on a count that can neither be
found in the cache nor read from the device, alloc a page (at the
lowest free count), then stamp byte 0 of the page at the scanned count
(the get is unwrapped: if the scanned count is still absent, panic). -/
def PageManage.find_page_by_type_from (st : PageManage) (page_count : Nat) (page_type : Nat) :
    Nat → ROut Nat × PageManage
  | 0 => (.nofuel, st)
  | fuel + 1 =>
    if page_count % BITMAP_MANAGED_SIZE + 1 = 0 then
      st.find_page_by_type_from (page_count + 1) page_type fuel
    else
      match st.get page_count with
      | (.ok p, st1) =>
        if p.data 0 = page_type then (.ok page_count, st1)
        else st1.find_page_by_type_from (page_count + 1) page_type fuel
      | (.err, st1) =>
        match st1.alloc (fuel + 1) .general with
        | (.ok _, st2) =>
          match st2.get page_count with
          | (.ok _, st3) =>
            (.ok page_count,
             st3.updatePage page_count (fun p =>
               { p with data := fun i => if i = 0 then page_type % 256 else p.data i }))
          | (_, st3) => (.crash, st3)
        | (.err, st2) => (.err, st2)
        | (.crash, st2) => (.crash, st2)
        | (.nofuel, st2) => (.nofuel, st2)
      | (.crash, st1) => (.crash, st1)
      | (.nofuel, st1) => (.nofuel, st1)

/-- PageManage::find_page_by_type. -/
def PageManage.find_page_by_type (st : PageManage) (start : Nat) (page_type : Nat) (fuel : Nat) :
    ROut Nat × PageManage :=
  st.find_page_by_type_from start page_type fuel

/-- ContentEntry from src/page.rs. -/
structure ContentEntry where
  data : List Nat
  overflow_page : Option Nat
deriving DecidableEq

/-- ContentEntry::total_size: 2 header bytes, plus 8 for the overflow
pointer when present, plus the inline bytes. -/
def ContentEntry.total_size (e : ContentEntry) : Nat :=
  match e.overflow_page with
  | none => 2 + e.data.length
  | some _ => 2 + 8 + e.data.length

/-- ContentEntry::precalculate_size. -/
def ContentEntry.precalculate_size (size : Nat) (overflowed : Bool) : Nat :=
  if overflowed then size + 2 + 8 else size + 2

/-- OverflowPage from src/page.rs. -/
structure OverflowPage where
  data : List Nat
  next : Option Nat
deriving DecidableEq

/-- OverflowPage::put_data: keep the payload whole if it fits a tail
page (PAGE_SIZE - 3 bytes), otherwise keep the first PAGE_SIZE - 11
bytes, leaving room for the next-page pointer. -/
def OverflowPage.put_data (p : OverflowPage) (d : List Nat) : OverflowPage :=
  if d.length > OVERFLOWPAGE_AVAILABLE_SIZE then
    { p with data := d.take OVERFLOWED_OVERFLOWPAGE_AVAILABLE_SIZE }
  else
    { p with data := d }

/-- OverflowPage::load: bytes 1..3 are a u16 whose top bit signals a
next page; with the bit set, size is the low 15 bits (size << 1 >> 1
in u16), the next count is bytes 3..11 and data starts at 11; with
the bit clear, data starts at 3. -/
def OverflowPage.load (pd : PageData) : OverflowPage :=
  let size := u16FromBe (readBytes pd 1 2)
  if size >>> 15 = 1 then
    let size1 := ((size <<< 1) % 2^16) >>> 1
    { data := readBytes pd 11 size1, next := some (u64FromBe (readBytes pd 3 8)) }
  else
    { data := readBytes pd 3 size, next := none }

/-- OverflowPage::dump. -/
def OverflowPage.dump (p : OverflowPage) : PageData :=
  let base : PageData := fun i => if i = 0 then PAGE_TYPEID_OVERFLOW else 0
  match p.next with
  | some next =>
    writeBytes
      (writeBytes (writeBytes base 1 (u16ToBe ((p.data.length % 2^16) ||| (1 <<< 15)))) 3 (u64ToBe next))
      11 p.data
  | none =>
    writeBytes (writeBytes base 1 (u16ToBe (p.data.length % 2^16))) 3 p.data

/-- ContentPage from src/page.rs. -/
structure ContentPage where
  entries : List ContentEntry
deriving DecidableEq

/-- ContentPage::total_size: 2-byte header plus the packed entries. -/
def ContentPage.total_size (cp : ContentPage) : Nat :=
  2 + (cp.entries.map ContentEntry.total_size).sum

/-- ContentPage::push: Ok (the page with the entry appended) when the
packed size stays within PAGE_SIZE, Err (none) otherwise. -/
def ContentPage.push (cp : ContentPage) (e : ContentEntry) : Option ContentPage :=
  if cp.total_size + e.total_size ≤ PAGE_SIZE then some { entries := cp.entries ++ [e] }
  else none

/-- Entry-parsing loop of ContentPage::load: read a 2-byte size whose
top bit signals an overflow pointer (8 more bytes), then the inline
bytes, advancing the cursor. -/
def ContentPage.loadEntries (pd : PageData) (ptr : Nat) : Nat → List ContentEntry
  | 0 => []
  | n + 1 =>
    let size := u16FromBe (readBytes pd ptr 2)
    if size >>> 15 = 1 then
      let size1 := size &&& (((65535 <<< 1) % 2^16) >>> 1)
      { data := readBytes pd (ptr + 2 + 8) size1,
        overflow_page := some (u64FromBe (readBytes pd (ptr + 2) 8)) }
        :: ContentPage.loadEntries pd (ptr + 2 + 8 + size1) n
    else
      { data := readBytes pd (ptr + 2) size, overflow_page := none }
        :: ContentPage.loadEntries pd (ptr + 2 + size) n

/-- ContentPage::load: byte 1 is the entry count. -/
def ContentPage.load (pd : PageData) : ContentPage :=
  { entries := ContentPage.loadEntries pd 2 (pd 1) }

/-- Entry-writing loop of ContentPage::dump. -/
def ContentPage.dumpEntries (entries : List ContentEntry) (pd : PageData) (ptr : Nat) : PageData :=
  match entries with
  | [] => pd
  | e :: rest =>
    match e.overflow_page with
    | some op =>
      let size := (e.data.length % 2^16) ||| (1 <<< 15)
      let pd1 := writeBytes pd ptr (u16ToBe size)
      let pd2 := writeBytes pd1 (ptr + 2) (u64ToBe op)
      let pd3 := writeBytes pd2 (ptr + 2 + 8) e.data
      ContentPage.dumpEntries rest pd3 (ptr + 2 + 8 + e.data.length)
    | none =>
      let pd1 := writeBytes pd ptr (u16ToBe (e.data.length % 2^16))
      let pd2 := writeBytes pd1 (ptr + 2) e.data
      ContentPage.dumpEntries rest pd2 (ptr + 2 + e.data.length)

/-- ContentPage::dump: byte 0 is the content type tag, byte 1 the
entry count, entries packed from byte 2. -/
def ContentPage.dump (cp : ContentPage) : PageData :=
  let base : PageData := fun i =>
    if i = 0 then PAGE_TYPEID_CONTENT else if i = 1 then cp.entries.length % 256 else 0
  ContentPage.dumpEntries cp.entries base 2

/-- Failure retag helper: carries err/crash/nofuel to a result of a
different payload type (never applied to ok in this development). -/
def ROut.fail {α β : Type} : ROut α → ROut β
  | .ok _ => .crash
  | .err => .err
  | .crash => .crash
  | .nofuel => .nofuel

/-- The overflow-chain loop of ContentEntry::from_bytes: build the
page for the current remainder, point the previous page at it, flush
the previous page, and either flush the current page and stop (no
remainder left) or allocate the next count and continue. -/
def ContentEntry.fromBytesLoop (st : PageManage) (last_count : Option Nat)
    (last_page : Option OverflowPage) (overflow_page_count : Nat) (d : List Nat) :
    Nat → ROut Unit × PageManage
  | 0 => (.nofuel, st)
  | fuel + 1 =>
    let last_page1 := last_page.map (fun lp => { lp with next := some overflow_page_count })
    let overflow_page := OverflowPage.put_data { data := [], next := none } d
    let step1 : ROut Unit × PageManage :=
      match last_count, last_page1 with
      | some count, some page => st.modify count page.dump
      | _, _ => (.ok (), st)
    match step1 with
    | (.ok _, st1) =>
      let d1 := d.drop overflow_page.data.length
      if d1.isEmpty then
        match st1.modify overflow_page_count overflow_page.dump with
        | (.ok _, st2) => (.ok (), st2)
        | (f, st2) => (f.fail, st2)
      else
        match st1.alloc (fuel + 1) .overflowPage with
        | (.ok pg, st2) =>
          ContentEntry.fromBytesLoop st2 (some overflow_page_count) (some overflow_page)
            pg.count d1 fuel
        | (f, st2) => (f.fail, st2)
    | (f, st1) => (f.fail, st1)

/-- ContentEntry::from_bytes: payloads up to PAGE_SIZE - 5 bytes stay
entirely inline; longer payloads keep PAGE_SIZE - 12 bytes inline and
chain the remainder through overflow pages. -/
def ContentEntry.from_bytes (st : PageManage) (d : List Nat) (fuel : Nat) :
    ROut ContentEntry × PageManage :=
  if d.length > PAGE_SIZE - 5 then
    match st.alloc fuel .overflowPage with
    | (.ok pg, st1) =>
      match ContentEntry.fromBytesLoop st1 none none pg.count (d.drop (PAGE_SIZE - 12)) fuel with
      | (.ok _, st2) =>
        (.ok { data := d.take (PAGE_SIZE - 12), overflow_page := some pg.count }, st2)
      | (f, st2) => (f.fail, st2)
    | (f, st1) => (f.fail, st1)
  else
    (.ok { data := d, overflow_page := none }, st)

/-- The successive data chunks that the from_bytes loop feeds to
OverflowPage::put_data: full OVERFLOWED_OVERFLOWPAGE_AVAILABLE_SIZE
slices while more than OVERFLOWPAGE_AVAILABLE_SIZE bytes remain, then
one final tail chunk. -/
def overflowChunks (d : List Nat) : List (List Nat) :=
  if _h : d.length > OVERFLOWPAGE_AVAILABLE_SIZE then
    d.take OVERFLOWED_OVERFLOWPAGE_AVAILABLE_SIZE
      :: overflowChunks (d.drop OVERFLOWED_OVERFLOWPAGE_AVAILABLE_SIZE)
  else [d]
termination_by d.length
decreasing_by
  simp only [List.length_drop, OVERFLOWPAGE_AVAILABLE_SIZE,
    OVERFLOWED_OVERFLOWPAGE_AVAILABLE_SIZE, PAGE_SIZE] at *
  omega

/-- Read an overflow chain out of the cached pages of a manager state,
following next pointers, returning the data chunks in order. -/
def PageManage.readChain (st : PageManage) : Nat → Nat → Option (List (List Nat))
  | 0, _ => none
  | fuel + 1, c =>
    match st.pages c with
    | none => none
    | some p =>
      let op := OverflowPage.load p.data
      match op.next with
      | none => some [op.data]
      | some nc => (st.readChain fuel nc).map (fun rest => op.data :: rest)

/-- BtreeNode from src/btree.rs.  ids and ptrs are the parallel entry
vectors; node_type is the raw byte (1 internal, 2 leaf). -/
structure BtreeNode where
  page_count : Nat
  ids : List Nat
  ptrs : List Nat
  node_type : Nat
deriving DecidableEq

/-- BtreeNode::new_node. -/
def BtreeNode.new_node (node_type : Nat) : BtreeNode :=
  { page_count := 0, ids := [], ptrs := [], node_type := node_type }

/-- BtreeNode::len. -/
def BtreeNode.len (n : BtreeNode) : Nat := n.ids.length

/-- BtreeNode::is_internal. -/
def BtreeNode.is_internal (n : BtreeNode) : Bool :=
  n.node_type = PAGE_TYPEID_BTREE_INTERNAL

/-- BtreeNode::is_leaf. -/
def BtreeNode.is_leaf (n : BtreeNode) : Bool :=
  n.node_type = PAGE_TYPEID_BTREE_LEAF

/-- BtreeNode::push. -/
def BtreeNode.push (n : BtreeNode) (id ptr : Nat) : BtreeNode :=
  { n with ids := n.ids ++ [id], ptrs := n.ptrs ++ [ptr] }

/-- BtreeNode::insert (Vec::insert at an index on both vectors). -/
def BtreeNode.insertAt (n : BtreeNode) (index id ptr : Nat) : BtreeNode :=
  { n with ids := n.ids.insertIdx index id, ptrs := n.ptrs.insertIdx index ptr }

/-- BtreeNode::load: byte 0 is the node type, byte 1 the entry count,
entry i is the two big-endian u64s at bytes 16*(i+1)..16*(i+2).
The page_count field is not serialized and comes back as the Default
value 0. -/
def BtreeNode.load (pd : PageData) : BtreeNode :=
  let id_count := pd 1
  { page_count := 0,
    node_type := pd 0,
    ids := (List.range id_count).map (fun i => u64FromBe (readBytes pd (UNIT_SIZE * (i + 1)) 8)),
    ptrs := (List.range id_count).map
      (fun i => u64FromBe (readBytes pd (UNIT_SIZE * (i + 1) + 8) 8)) }

/-- BtreeNode::new: load and then overwrite page_count. -/
def BtreeNode.new (page_count : Nat) (pd : PageData) : BtreeNode :=
  { BtreeNode.load pd with page_count := page_count }

/-- Entry-writing loop of BtreeNode::dump. -/
def BtreeNode.dumpEntries (l : List (Nat × Nat)) (pd : PageData) (i : Nat) : PageData :=
  match l with
  | [] => pd
  | (id, ptr) :: rest =>
    BtreeNode.dumpEntries rest
      (writeBytes (writeBytes pd (UNIT_SIZE * (i + 1)) (u64ToBe id))
        (UNIT_SIZE * (i + 1) + 8) (u64ToBe ptr))
      (i + 1)

/-- BtreeNode::dump. -/
def BtreeNode.dump (n : BtreeNode) : PageData :=
  let base : PageData := fun i =>
    if i = 0 then n.node_type % 256 else if i = 1 then n.len % 256 else 0
  BtreeNode.dumpEntries (n.ids.zip n.ptrs) base 0

/-- The insertion condition of BtreeNode::add and of the internal
branch of insert_id_nontop, evaluated at slot i:
i < len - 1 && id > ids[i] && id < ids[i+1] || i == len - 1. -/
def BtreeNode.insertCond (n : BtreeNode) (id i : Nat) : Bool :=
  (i < n.len - 1 ∧ id > n.ids.getD i 0 ∧ id < n.ids.getD (i + 1) 0) ∨ i = n.len - 1

/-- Loop of BtreeNode::add over slots i, i+1, ... with the given
number of remaining iterations: insert after the first slot whose
condition holds. -/
def BtreeNode.addLoop (n : BtreeNode) (id ptr i : Nat) : Nat → BtreeNode
  | 0 => n
  | remaining + 1 =>
    if n.insertCond id i then n.insertAt (i + 1) id ptr
    else n.addLoop id ptr (i + 1) remaining

/-- BtreeNode::add: push into an empty node, otherwise scan for the
insertion slot.  A key below the node's minimum only matches the
condition at the last slot and is appended at the end. -/
def BtreeNode.add (n : BtreeNode) (id ptr : Nat) : BtreeNode :=
  if n.ids.isEmpty then n.push id ptr
  else n.addLoop id ptr 0 n.len

/-- BtreeNode::part: pop the upper len/2 entries into a fresh right
node of the same type, allocate a page for it, write both nodes, and
return the right node's first key and page count. -/
def BtreeNode.part (n : BtreeNode) (st : PageManage) (fuel : Nat) :
    ROut (Nat × Nat) × BtreeNode × PageManage :=
  let k := n.len / 2
  let keep := n.len - k
  let another0 : BtreeNode :=
    { page_count := 0, ids := n.ids.drop keep, ptrs := n.ptrs.drop keep, node_type := n.node_type }
  let n1 : BtreeNode := { n with ids := n.ids.take keep, ptrs := n.ptrs.take keep }
  match st.alloc fuel .btreePage with
  | (.ok pg, st1) =>
    let another := { another0 with page_count := pg.count }
    let st2 := st1.updatePage pg.count (fun p => p.modifyData another.dump)
    match st2.modifyDrop n1.page_count n1.dump with
    | (.ok _, st3) =>
      match another.ids.head? with
      | some firstId => (.ok (firstId, another.page_count), n1, st3)
      | none => (.crash, n1, st3)
    | (f, st3) => (f.fail, n1, st3)
  | (f, st1) => (f.fail, n, st1)

/-- Loop of the internal branch of BtreeNode::insert_id_nontop over
the slots of the frozen entry range, with the recursive descent passed
in as `rec`: on a matching slot, descend into the child, add the
returned separator if the child split, and part this node if it has
reached MAX_IDS; then keep scanning. -/
def BtreeNode.insertLoop
    (rec : BtreeNode → PageManage → ROut (Option (Nat × Nat)) × BtreeNode × PageManage)
    (partFuel : Nat) (id value : Nat) (n : BtreeNode) (st : PageManage) (i : Nat) :
    Nat → ROut (Option (Nat × Nat)) × BtreeNode × PageManage
  | 0 => (.ok none, n, st)
  | remaining + 1 =>
    if n.insertCond id i then
      match st.get (n.ptrs.getD i 0) with
      | (.ok pg, st1) =>
        match rec (BtreeNode.new pg.count pg.data) st1 with
        | (.ok optRes, _, st2) =>
          let afterAdd : ROut Unit × BtreeNode × PageManage :=
            match optRes with
            | some (id2, page) =>
              let n1 := n.add id2 page
              match st2.modifyDrop n1.page_count n1.dump with
              | (.ok _, st3) => (.ok (), n1, st3)
              | (f, st3) => (f.fail, n1, st3)
            | none => (.ok (), n, st2)
          match afterAdd with
          | (.ok _, n1, st3) =>
            if n1.len ≥ MAX_IDS then
              match n1.part st3 partFuel with
              | (.ok pr, n2, st4) => (.ok (some pr), n2, st4)
              | (f, n2, st4) => (f.fail, n2, st4)
            else BtreeNode.insertLoop rec partFuel id value n1 st3 (i + 1) remaining
          | (f, n1, st3) => (f.fail, n1, st3)
        | (f, _, st2) => (f.fail, n, st2)
      | (_, st1) => (.crash, n, st1)
    else BtreeNode.insertLoop rec partFuel id value n st (i + 1) remaining

/-- BtreeNode::insert_id_nontop: at a leaf, add and split at MAX_IDS;
at an internal node, run the slot loop with the recursive descent at
one less fuel. -/
def BtreeNode.insert_id_nontop (fuel : Nat) (n : BtreeNode) (st : PageManage) (id value : Nat) :
    ROut (Option (Nat × Nat)) × BtreeNode × PageManage :=
  match fuel with
  | 0 => (.nofuel, n, st)
  | fuel + 1 =>
    if n.is_leaf then
      let n1 := n.add id value
      match st.modifyDrop n1.page_count n1.dump with
      | (.ok _, st1) =>
        if n1.len ≥ MAX_IDS then
          match n1.part st1 (fuel + 1) with
          | (.ok pr, n2, st2) => (.ok (some pr), n2, st2)
          | (f, n2, st2) => (f.fail, n2, st2)
        else (.ok none, n1, st1)
      | (f, st1) => (f.fail, n1, st1)
    else
      BtreeNode.insertLoop (fun c s => BtreeNode.insert_id_nontop fuel c s id value)
        (fuel + 1) id value n st 0 n.len

/-- BtreeNode::insert_id: run insert_id_nontop on the root; if it
split, copy the root's remaining contents into a freshly allocated
left child and turn the root page into an internal node with exactly
the two entries (left's first key, left page count) and (separator,
right page count). -/
def BtreeNode.insert_id (fuel : Nat) (n : BtreeNode) (st : PageManage) (id value : Nat) :
    ROut Unit × BtreeNode × PageManage :=
  match BtreeNode.insert_id_nontop fuel n st id value with
  | (.ok (some (id2, page)), n1, st1) =>
    let left0 : BtreeNode :=
      { page_count := 0, ids := n1.ids, ptrs := n1.ptrs, node_type := n1.node_type }
    match st1.alloc fuel .btreePage with
    | (.ok pg, st2) =>
      let left := { left0 with page_count := pg.count }
      let st3 := st2.updatePage pg.count (fun p => p.modifyData left.dump)
      match left.ids.head? with
      | some fid =>
        let n2 : BtreeNode :=
          { n1 with
            ids := [fid, id2]
            ptrs := [pg.count, page]
            node_type := PAGE_TYPEID_BTREE_INTERNAL }
        match st3.modifyDrop n2.page_count n2.dump with
        | (.ok _, st4) => (.ok (), n2, st4)
        | (f, st4) => (f.fail, n2, st4)
      | none => (.crash, n1, st3)
    | (f, st2) => (f.fail, n1, st2)
  | (.ok none, n1, st1) => (.ok (), n1, st1)
  | (f, n1, st1) => (f.fail, n1, st1)

/-- The child-selection condition of find_id and remove_id at slot i:
i < len - 1 && id >= ids[i] && id < ids[i+1] || i == len - 1. -/
def BtreeNode.selectCond (n : BtreeNode) (id i : Nat) : Bool :=
  (i < n.len - 1 ∧ id ≥ n.ids.getD i 0 ∧ id < n.ids.getD (i + 1) 0) ∨ i = n.len - 1

/-- First slot from i on that satisfies selectCond, within the given
number of remaining iterations. -/
def BtreeNode.selectSlot (n : BtreeNode) (id i : Nat) : Nat → Option Nat
  | 0 => none
  | remaining + 1 =>
    if n.selectCond id i then some i else n.selectSlot id (i + 1) remaining

/-- BtreeNode::find_id: descend through internal nodes by the
child-selection rule (each get unwrapped), and linearly scan a leaf
for an exact key match. -/
def BtreeNode.find_id (fuel : Nat) (n : BtreeNode) (st : PageManage) (id : Nat) :
    ROut (Option Nat) × PageManage :=
  match fuel with
  | 0 => (.nofuel, st)
  | fuel + 1 =>
    if n.is_internal then
      match n.selectSlot id 0 n.len with
      | some i =>
        match st.get (n.ptrs.getD i 0) with
        | (.ok pg, st1) => BtreeNode.find_id fuel (BtreeNode.new pg.count pg.data) st1 id
        | (.nofuel, st1) => (.nofuel, st1)
        | (_, st1) => (.crash, st1)
      | none => (.ok none, st)
    else
      (.ok ((n.ids.zip n.ptrs).findSome? (fun p => if id = p.1 then some p.2 else none)), st)

/-- Gap scan of the leaf branch of find_unused_nontop: the first i
with ids[i] + 1 < ids[i+1] yields ids[i] + 1. -/
def BtreeNode.gapScan (n : BtreeNode) (i : Nat) : Nat → Option Nat
  | 0 => none
  | remaining + 1 =>
    if n.ids.getD i 0 + 1 < n.ids.getD (i + 1) 0 then some (n.ids.getD i 0 + 1)
    else n.gapScan (i + 1) remaining

/-- Loop of the internal branch of find_unused_nontop over children
left to right, with the recursive descent passed in as `rec`: a
child's firm answer is returned as is; a child's reported maximum m
becomes m + 1 when it stays below the next separator or the child is
last; otherwise continue. -/
def BtreeNode.findUnusedLoop
    (rec : BtreeNode → PageManage → ROut (Option Nat × Option Nat) × PageManage)
    (n : BtreeNode) (st : PageManage) (i : Nat) :
    Nat → ROut (Option Nat × Option Nat) × PageManage
  | 0 => (.ok (none, none), st)
  | remaining + 1 =>
    match st.get (n.ptrs.getD i 0) with
    | (.ok pg, st1) =>
      match rec (BtreeNode.new pg.count pg.data) st1 with
      | (.ok result, st2) =>
        match result.1 with
        | some id => (.ok (some id, none), st2)
        | none =>
          match result.2 with
          | some id =>
            if (i < n.len - 1 ∧ id + 1 < n.ids.getD (i + 1) 0) ∨ i = n.len - 1 then
              (.ok (some (id + 1), none), st2)
            else BtreeNode.findUnusedLoop rec n st2 (i + 1) remaining
          | none => BtreeNode.findUnusedLoop rec n st2 (i + 1) remaining
      | (f, st2) => (f.fail, st2)
    | (.nofuel, st1) => (.nofuel, st1)
    | (_, st1) => (.crash, st1)

/-- BtreeNode::find_unused_nontop: internal nodes run the child loop;
a leaf with more than one key reports the first gap as a firm answer,
else its last key as the running maximum; smaller leaves report
nothing. -/
def BtreeNode.find_unused_nontop (fuel : Nat) (n : BtreeNode) (st : PageManage) :
    ROut (Option Nat × Option Nat) × PageManage :=
  match fuel with
  | 0 => (.nofuel, st)
  | fuel + 1 =>
    if n.is_internal then
      BtreeNode.findUnusedLoop (fun c s => BtreeNode.find_unused_nontop fuel c s) n st 0 n.len
    else if n.ids.length > 1 then
      match n.gapScan 0 (n.ids.length - 1) with
      | some v => (.ok (some v, none), st)
      | none => (.ok (none, some (n.ids.getLastD 0)), st)
    else (.ok (none, none), st)

/-- BtreeNode::find_unused: a firm answer is returned as is; failing
that, the reported running maximum is returned unchanged; an empty
report yields 0. -/
def BtreeNode.find_unused (fuel : Nat) (n : BtreeNode) (st : PageManage) :
    ROut Nat × PageManage :=
  match BtreeNode.find_unused_nontop fuel n st with
  | (.ok result, st1) =>
    match result.1 with
    | some id => (.ok id, st1)
    | none =>
      match result.2 with
      | some id => (.ok id, st1)
      | none => (.ok 0, st1)
  | (f, st1) => (f.fail, st1)

/-- location_to_u64 from src/table.rs: (page_count << 8 | offset) in
u64 arithmetic, offset already a u8. -/
def location_to_u64 (content_page_count offset : Nat) : Nat :=
  ((content_page_count <<< 8) % 2^64) ||| (offset % 256)

/-- location_from_u64 from src/table.rs. -/
def location_from_u64 (v : Nat) : Nat × Nat :=
  (v >>> 8, v &&& 255)

/-- ValueType from src/table.rs. -/
inductive ValueType where
  | number
  | bytes
deriving DecidableEq

/-- Value from src/table.rs. -/
structure Value where
  value_type : ValueType
  data : List Nat
deriving DecidableEq

/-- Record from src/table.rs. -/
structure Record where
  rowid : Nat
  values : List Value
  location : List (Nat × Nat)
deriving DecidableEq

/-- Table from src/table.rs. -/
structure Table where
  root_node : BtreeNode
  value_types : List ValueType

/-- The rowid-probing loop of Table::insert: count upward from the
given id until find_id reports the id absent. -/
def Table.probeId (root : BtreeNode) (st : PageManage) (id : Nat) :
    Nat → ROut Nat × PageManage
  | 0 => (.nofuel, st)
  | fuel + 1 =>
    match BtreeNode.find_id (fuel + 1) root st id with
    | (.ok none, st1) => (.ok id, st1)
    | (.ok (some _), st1) => Table.probeId root st1 (id + 1) fuel
    | (f, st1) => (f.fail, st1)

/-- The inner page-hunting loop of Table::insert for one value: try
push on the in-memory content page; on success write it back, record
the location in the B-tree (first value) or patch the previous cell's
first 8 bytes (later values); on failure fetch another content page
count but retry push on the same unreloaded in-memory page. -/
def Table.insertValLoop (root : BtreeNode) (entry : ContentEntry) (count numValues : Nat)
    (last_location : Option Nat) (st : PageManage) (page_count : Nat)
    (content_page : ContentPage) : Nat → ROut (Nat × Option Nat × BtreeNode) × PageManage
  | 0 => (.nofuel, st)
  | fuel + 1 =>
    match content_page.push entry with
    | some cp1 =>
      match st.modifyDrop page_count cp1.dump with
      | (.ok _, st1) =>
        if cp1.entries.length % 256 = 0 then (.crash, st1)
        else
          let offset := cp1.entries.length % 256 - 1
          let loc := location_to_u64 page_count offset
          if count = 0 then
            match Table.probeId root st1 0 (fuel + 1) with
            | (.ok id, st2) =>
              match BtreeNode.insert_id (fuel + 1) root st2 id loc with
              | (.ok _, root1, st3) => (.ok (page_count, some loc, root1), st3)
              | (f, _, st3) => (f.fail, st3)
            | (f, st2) => (f.fail, st2)
          else
            match last_location with
            | some lastLoc =>
              let lpc := (location_from_u64 lastLoc).1
              let loff := (location_from_u64 lastLoc).2
              match st1.get lpc with
              | (.ok pg, st2) =>
                let lastCp := ContentPage.load pg.data
                match lastCp.entries.get? loff with
                | some e =>
                  if 8 ≤ e.data.length then
                    let e1 := { e with data := u64ToBe loc ++ e.data.drop 8 }
                    let lastCp1 : ContentPage := { entries := lastCp.entries.set loff e1 }
                    match st2.modifyDrop lpc lastCp1.dump with
                    | (.ok _, st3) => (.ok (page_count, some loc, root), st3)
                    | (f, st3) => (f.fail, st3)
                  else (.crash, st2)
                | none => (.crash, st2)
              | (.nofuel, st2) => (.nofuel, st2)
              | (_, st2) => (.crash, st2)
            | none => (.crash, st1)
      | (f, st1) => (f.fail, st1)
    | none =>
      match st.find_page_by_type (page_count + 1) PAGE_TYPEID_CONTENT (fuel + 1) with
      | (.ok pc1, st1) =>
        Table.insertValLoop root entry count numValues last_location st1 pc1 content_page fuel
      | (f, st1) => (f.fail, st1)

/-- The per-value loop of Table::insert: build the entry (with an
8-byte zero placeholder prefix for every value but the last), load the
current content page, and run the inner loop. -/
def Table.insertVals (fuel : Nat) (root : BtreeNode) (st : PageManage) (values : List Value)
    (count numValues : Nat) (last_location : Option Nat) (page_count : Nat) :
    ROut BtreeNode × PageManage :=
  match values with
  | [] => (.ok root, st)
  | v :: rest =>
    let entry : ContentEntry :=
      if count < numValues - 1 then { data := List.replicate 8 0 ++ v.data, overflow_page := none }
      else { data := v.data, overflow_page := none }
    match st.get page_count with
    | (.ok pg, st1) =>
      let content_page := ContentPage.load pg.data
      match Table.insertValLoop root entry count numValues last_location st1 page_count
          content_page fuel with
      | (.ok (pc1, lastLoc1, root1), st2) =>
        Table.insertVals fuel root1 st2 rest (count + 1) numValues lastLoc1 pc1
      | (f, st2) => (f.fail, st2)
    | (.nofuel, st1) => (.nofuel, st1)
    | (_, st1) => (.crash, st1)

/-- Table::insert: probe the first absent rowid, find a starting
content page, and place the values; returns the rowid and the mutated
in-memory root node. -/
def Table.insert (fuel : Nat) (tbl : Table) (st : PageManage) (rec : Record) :
    ROut (Nat × BtreeNode) × PageManage :=
  match Table.probeId tbl.root_node st 0 fuel with
  | (.ok rowid, st1) =>
    match st1.find_page_by_type 0 PAGE_TYPEID_CONTENT fuel with
    | (.ok pc, st2) =>
      match Table.insertVals fuel tbl.root_node st2 rec.values 0 rec.values.length none pc with
      | (.ok root1, st3) => (.ok (rowid, root1), st3)
      | (f, st3) => (f.fail, st3)
    | (f, st2) => (f.fail, st2)
  | (f, st1) => (f.fail, st1)

/-- The cell-walking loop of Table::query: for every slot but the last
take bytes 8.. as the value and bytes 0..8 as the next location; the
last slot takes the whole cell. -/
def Table.queryLoop (st : PageManage) (numTypes i content_page_count offset : Nat)
    (acc : List Value) : Nat → ROut (List Value) × PageManage
  | 0 => (.ok acc, st)
  | remaining + 1 =>
    match st.get content_page_count with
    | (.ok pg, st1) =>
      let cp := ContentPage.load pg.data
      match cp.entries.get? offset with
      | some e =>
        if i < numTypes - 1 then
          if 8 ≤ e.data.length then
            let nextLoc := location_from_u64 (u64FromBe (e.data.take 8))
            Table.queryLoop st1 numTypes (i + 1) nextLoc.1 nextLoc.2
              (acc ++ [{ value_type := .bytes, data := e.data.drop 8 }]) remaining
          else (.crash, st1)
        else
          (.ok (acc ++ [{ value_type := .bytes, data := e.data }]), st1)
      | none => (.crash, st1)
    | (.nofuel, st1) => (.nofuel, st1)
    | (_, st1) => (.crash, st1)

/-- Table::query: the B-tree lookup is unwrapped (a missing rowid
panics), then the linked cells are walked for as many slots as the
table declares value types. -/
def Table.query (fuel : Nat) (tbl : Table) (st : PageManage) (rowid : Nat) :
    ROut (List Value) × PageManage :=
  match BtreeNode.find_id fuel tbl.root_node st rowid with
  | (.ok (some node_val), st1) =>
    let loc := location_from_u64 node_val
    Table.queryLoop st1 tbl.value_types.length 0 loc.1 loc.2 [] tbl.value_types.length
  | (.ok none, st1) => (.crash, st1)
  | (f, st1) => (f.fail, st1)

/-- True iff the outcome is a Rust panic. -/
def ROut.isCrash {α : Type} : ROut α → Bool
  | .crash => true
  | _ => false

/-- Strictly increasing key list, the B-tree node ordering invariant. -/
def strictlyInc : List Nat → Bool
  | [] => true
  | [_] => true
  | a :: b :: t => a < b && strictlyInc (b :: t)

/-- A freshly opened manager over an empty backing store with the
given cache capacity (PageManage::default plus an empty file). -/
def emptySt (c : Nat) : PageManage :=
  { pages := fun _ => none, cache_size := c, cache_pages := [], device := fun _ => none }

/-- A leaf root holding keys 0 and 1. -/
def leaf01 : BtreeNode := { page_count := 7, ids := [0, 1], ptrs := [10, 11], node_type := 2 }

/-- A leaf root holding only key 0. -/
def leafZ : BtreeNode := { page_count := 7, ids := [0], ptrs := [10], node_type := 2 }

/-- A leaf root holding only key 5. -/
def leaf5 : BtreeNode := { page_count := 1, ids := [5], ptrs := [50], node_type := 2 }

/-- A cached bitmap page whose bits 0, 1 and 2 are set: the bitmap
itself plus allocated pages 1 and 2. -/
def bmPage224 : Page :=
  { page_type := .bitmapPage, count := 0, syncd := false,
    data := fun i => if i = 0 then 224 else 0 }

/-- Manager state with pages 1 and 2 allocated in the bitmap. -/
def stC3 : PageManage :=
  { pages := fun c => if c = 0 then some bmPage224 else none,
    cache_size := 1024, cache_pages := [0], device := fun _ => none }

/-- State after one alloc from a fresh store with cache capacity 1:
bitmap page 0 and page 1 live in the map, queue [0, 1]. -/
def st10a : PageManage := (PageManage.alloc (emptySt 1) 3 .btreePage).2

/-- State after releasing page 1 from st10a: the map forgets page 1
but the queue still holds it. -/
def st10b : PageManage := (PageManage.release st10a 1).2

/-- A cached bitmap page whose bits 0 and 1 are set: the bitmap plus
an allocated root page 1. -/
def bmPage192 : Page :=
  { page_type := .bitmapPage, count := 0, syncd := false,
    data := fun i => if i = 0 then 192 else 0 }

/-- A zero-filled B-tree root page at count 1. -/
def rootPage1 : Page := { page_type := .btreePage, count := 1, syncd := false, data := zeroData }

/-- The manager of a freshly created table: bitmap page 0 (bits 0 and
1 set) and the allocated root page 1, as main.rs sets it up. -/
def stRoot : PageManage :=
  { pages := fun c => if c = 0 then some bmPage192 else if c = 1 then some rootPage1 else none,
    cache_size := 1024, cache_pages := [0, 1], device := fun _ => none }

/-- A root leaf holding keys 0..252. -/
def leaf253 : BtreeNode :=
  { page_count := 1, ids := List.range 253, ptrs := List.range 253, node_type := 2 }

/-- A root leaf holding keys 0..253, one insertion below MAX_IDS. -/
def leaf254 : BtreeNode :=
  { page_count := 1, ids := List.range 254, ptrs := List.range 254, node_type := 2 }

/-- A root leaf at the fanout limit: keys 0..254. -/
def leaf255 : BtreeNode :=
  { page_count := 1, ids := List.range 255, ptrs := List.range 255, node_type := 2 }

/-- A node serialization counterexample carrier: an empty leaf whose
in-memory page_count is 1. -/
def nodeA : BtreeNode := { page_count := 1, ids := [], ptrs := [], node_type := 2 }

/-- The lower half of the split 255-entry leaf: keys 0..127, still at
the root's page count before being copied to the new left page. -/
def leftW : BtreeNode :=
  { page_count := 1, ids := List.range 128, ptrs := List.range 128, node_type := 2 }

/-- A content entry holding a value of PAGE_SIZE - 3 bytes, larger
than any content page can take (2 page header + 2 entry header + data
exceeds PAGE_SIZE). -/
def oversizeEntry : ContentEntry :=
  { data := List.replicate (PAGE_SIZE - 3) 0, overflow_page := none }

/-- A single-value record whose value is PAGE_SIZE - 3 bytes of
zeros. -/
def oversizeRecord : Record :=
  { rowid := 0,
    values := [{ value_type := .bytes, data := List.replicate (PAGE_SIZE - 3) 0 }],
    location := [] }

/-- A concrete legal B-tree node for round-trip evaluation. -/
def nodeW : BtreeNode := { page_count := 4, ids := [5, 700, 65536], ptrs := [1, 2, 3], node_type := 1 }

/-- A concrete legal content page for round-trip evaluation. -/
def cpW : ContentPage :=
  { entries := [{ data := [1, 2, 3], overflow_page := none },
                { data := [9], overflow_page := some 77 }] }

/-- A concrete legal overflow page for round-trip evaluation. -/
def opW : OverflowPage := { data := [1, 2, 3, 4], next := some 9 }

/-- The bitmap-page buffer in which exactly bits 0 .. n-1 (in the
most-significant-bit-first order set_used uses) are set. -/
def bmData (n : Nat) : PageData :=
  fun i =>
    if (i + 1) * 8 ≤ n then 255
    else if i * 8 < n then 256 - 2 ^ (8 - (n - i * 8))
    else 0

/-- The cached bitmap page 0 with bits 0 .. n-1 set, as it looks after
creation and any number of modify calls. -/
def bmPageN (n : Nat) : Page :=
  { page_type := .bitmapPage, count := 0, syncd := false, data := bmData n }

/-- The cached overflow page holding the dump of one chain link. -/
def ovPage (c : Nat) (chunk : List Nat) (next : Option Nat) : Page :=
  { page_type := .overflowPage, count := c, syncd := false,
    data := OverflowPage.dump { data := chunk, next := next } }

/-- Manager state at the head of a from_bytes chain iteration: the
finished links of `done` occupy counts 1 .. done.length, the pending
link (count done.length + 1) and the current link (count
done.length + 2) are still fresh zero pages, and the bitmap has all
done.length + 2 pages plus itself marked used. -/
def loopSt (C : Nat) (done : List (List Nat)) : PageManage :=
  { pages := fun k =>
      if k = 0 then some (bmPageN (done.length + 3))
      else if k ≤ done.length then some (ovPage k (done.getD (k - 1) []) (some (k + 1)))
      else if k ≤ done.length + 2 then some (Page.new k .overflowPage)
      else none,
    cache_size := C,
    cache_pages := List.range (done.length + 3),
    device := fun _ => none }

/-- Manager state after a completed from_bytes chain write: counts
1 .. allD.length hold the chain links in order, each pointing to the
next and the last pointing nowhere. -/
def chainFinalSt (C : Nat) (allD : List (List Nat)) : PageManage :=
  { pages := fun k =>
      if k = 0 then some (bmPageN (allD.length + 1))
      else if k < allD.length then some (ovPage k (allD.getD (k - 1) []) (some (k + 1)))
      else if k = allD.length then some (ovPage k (allD.getD (k - 1) []) none)
      else none,
    cache_size := C,
    cache_pages := List.range (allD.length + 1),
    device := fun _ => none }

/-- A payload of PAGE_SIZE - 4 bytes, one byte past the inline limit. -/
def dW5 : List Nat := List.replicate (PAGE_SIZE - 4) 7


/-- Setting a fresh high bit by bitwise or is addition. -/
theorem lor_two_pow_eq_add {x n : Nat} (h : x < 2 ^ n) : x ||| 2 ^ n = x + 2 ^ n := by
  apply Nat.eq_of_testBit_eq
  intro k
  rw [Nat.testBit_lor]
  rcases Nat.lt_trichotomy k n with hk | hk | hk
  · have h1 : Nat.testBit (2 ^ n) k = false := Nat.testBit_two_pow_of_ne (by omega)
    have h2 : Nat.testBit (x + 2 ^ n) k = Nat.testBit x k := by
      rw [Nat.testBit_to_div_mod, Nat.testBit_to_div_mod]
      have hsplit : x + 2 ^ n = x + 2 ^ k * 2 ^ (n - k) := by
        rw [← pow_add]
        congr 2
        omega
      rw [hsplit, Nat.add_mul_div_left _ _ (Nat.pos_pow_of_pos k (by omega))]
      have heven : 2 ^ (n - k) = 2 ^ (n - k - 1) * 2 := by
        rw [← pow_succ]
        congr 1
        omega
      rw [heven, ← Nat.add_mul_mod_self_right (x / 2 ^ k) (2 ^ (n - k - 1)) 2]
    rw [h1, h2, Bool.or_false]
  · subst hk
    have h1 : Nat.testBit x k = false := Nat.testBit_lt_two_pow h
    have h2 : Nat.testBit (2 ^ k) k = true := Nat.testBit_two_pow_self
    have h3 : Nat.testBit (x + 2 ^ k) k = true := by
      rw [Nat.testBit_to_div_mod]
      have : x + 2 ^ k = x + 2 ^ k * 1 := by omega
      rw [this, Nat.add_mul_div_left _ _ (Nat.pos_pow_of_pos k (by omega))]
      have hx0 : x / 2 ^ k = 0 := Nat.div_eq_of_lt h
      rw [hx0]
      decide
    rw [h1, h2, h3]
    decide
  · have hxk : x < 2 ^ k := lt_of_lt_of_le h (Nat.pow_le_pow_right (by omega) (by omega))
    have h1 : Nat.testBit x k = false := Nat.testBit_lt_two_pow hxk
    have h2 : Nat.testBit (2 ^ n) k = false := Nat.testBit_two_pow_of_ne (by omega)
    have h3 : Nat.testBit (x + 2 ^ n) k = false := by
      apply Nat.testBit_lt_two_pow
      have : 2 ^ (n + 1) ≤ 2 ^ k := Nat.pow_le_pow_right (by omega) (by omega)
      have : x + 2 ^ n < 2 ^ (n + 1) := by
        have := pow_succ 2 n
        omega
      omega
    rw [h1, h2, h3]
    decide

/-- u64 big-endian byte round trip. -/
theorem u64FromBe_u64ToBe {x : Nat} (h : x < 2 ^ 64) : u64FromBe (u64ToBe x) = x := by
  simp only [u64ToBe, u64FromBe, List.foldl]
  omega

/-- u16 big-endian byte round trip. -/
theorem u16FromBe_u16ToBe {x : Nat} (h : x < 2 ^ 16) : u16FromBe (u16ToBe x) = x := by
  simp only [u16ToBe, u16FromBe, List.foldl]
  omega

theorem u64ToBe_lt (x : Nat) : ∀ b ∈ u64ToBe x, b < 256 := by
  simp [u64ToBe]
  omega

theorem u16ToBe_lt (x : Nat) : ∀ b ∈ u16ToBe x, b < 256 := by
  simp [u16ToBe]
  omega

theorem u64ToBe_length (x : Nat) : (u64ToBe x).length = 8 := by simp [u64ToBe]

theorem u16ToBe_length (x : Nat) : (u16ToBe x).length = 2 := by simp [u16ToBe]

theorem readBytes_length (p : PageData) (s l : Nat) : (readBytes p s l).length = l := by
  simp [readBytes]

/-- Reading back exactly the bytes just written. -/
theorem readBytes_writeBytes (p : PageData) (s : Nat) (bs : List Nat)
    (hb : ∀ b ∈ bs, b < 256) : readBytes (writeBytes p s bs) s bs.length = bs := by
  apply List.ext_getElem (by simp [readBytes])
  intro i hi1 hi2
  simp only [readBytes, writeBytes, List.getElem_map, List.getElem_range]
  rw [if_pos (by constructor <;> omega)]
  have hs : s + i - s = i := by omega
  rw [hs]
  have hi : i < bs.length := by simpa [readBytes] using hi2
  rw [List.getD_eq_getElem bs 0 hi]
  exact Nat.mod_eq_of_lt (hb _ (List.getElem_mem hi))

/-- A write leaves bytes before its region unchanged. -/
theorem writeBytes_eq_of_lt (p : PageData) (s : Nat) (bs : List Nat) (i : Nat) (h : i < s) :
    writeBytes p s bs i = p i := by
  simp only [writeBytes]
  rw [if_neg (by omega)]

/-- A write leaves bytes at or beyond its region's end unchanged. -/
theorem writeBytes_eq_of_ge (p : PageData) (s : Nat) (bs : List Nat) (i : Nat)
    (h : s + bs.length ≤ i) : writeBytes p s bs i = p i := by
  simp only [writeBytes]
  rw [if_neg (by omega)]

/-- Reads only depend on the bytes inside the window. -/
theorem readBytes_congr {p q : PageData} {s l : Nat}
    (h : ∀ i, s ≤ i → i < s + l → p i = q i) : readBytes p s l = readBytes q s l := by
  simp only [readBytes]
  apply List.map_congr_left
  intro i hi
  have : i < l := List.mem_range.mp hi
  exact h (s + i) (by omega) (by omega)

/-- The shift-and-mask used by the loaders to clear a u16's top bit is
the constant 32767. -/
theorem u16_mask_const : (((65535 <<< 1) % 2 ^ 16) >>> 1) = 32767 := by decide

/-- Round trip for OverflowPage: dump then load restores every legal
in-memory value (bytes in range, data within the tail/non-tail
capacity, next pointer a u64). -/
theorem OverflowPage.loadDumpOv (p : OverflowPage)
    (hb : ∀ b ∈ p.data, b < 256)
    (hlen : p.data.length ≤
      (if p.next.isSome then OVERFLOWED_OVERFLOWPAGE_AVAILABLE_SIZE
       else OVERFLOWPAGE_AVAILABLE_SIZE))
    (hnext : ∀ nx ∈ p.next, nx < 2 ^ 64) :
    OverflowPage.load p.dump = p := by
  obtain ⟨d, nx⟩ := p
  match nx with
  | some nxv =>
    simp only [Option.isSome_some, if_pos, OVERFLOWED_OVERFLOWPAGE_AVAILABLE_SIZE,
      PAGE_SIZE] at hlen
    have hnxv : nxv < 2 ^ 64 := hnext nxv rfl
    have hdlen : d.length < 2 ^ 15 := by omega
    have hmod : d.length % 2 ^ 16 = d.length := Nat.mod_eq_of_lt (by omega)
    have hsz : (d.length % 2 ^ 16) ||| (1 <<< 15) = d.length + 2 ^ 15 := by
      rw [hmod]
      have h15 : (1 : Nat) <<< 15 = 2 ^ 15 := by decide
      rw [h15]
      exact lor_two_pow_eq_add hdlen
    simp only [OverflowPage.dump, OverflowPage.load, hsz]
    -- the three write regions: [1,3) size, [3,11) next, [11,11+len) data
    have hr1 : readBytes
        (writeBytes (writeBytes (writeBytes (fun i => if i = 0 then PAGE_TYPEID_OVERFLOW else 0)
          1 (u16ToBe (d.length + 2 ^ 15))) 3 (u64ToBe nxv)) 11 d) 1 2
        = u16ToBe (d.length + 2 ^ 15) := by
      have hcg : readBytes
          (writeBytes (writeBytes (writeBytes (fun i => if i = 0 then PAGE_TYPEID_OVERFLOW else 0)
            1 (u16ToBe (d.length + 2 ^ 15))) 3 (u64ToBe nxv)) 11 d) 1 2
          = readBytes (writeBytes (fun i => if i = 0 then PAGE_TYPEID_OVERFLOW else 0)
            1 (u16ToBe (d.length + 2 ^ 15))) 1 2 := by
        apply readBytes_congr
        intro i hi1 hi2
        rw [writeBytes_eq_of_lt _ _ _ _ (by omega), writeBytes_eq_of_lt _ _ _ _ (by omega)]
      rw [hcg]
      have := readBytes_writeBytes (fun i => if i = 0 then PAGE_TYPEID_OVERFLOW else 0)
        1 (u16ToBe (d.length + 2 ^ 15)) (u16ToBe_lt _)
      rwa [u16ToBe_length] at this
    rw [hr1, u16FromBe_u16ToBe (by omega)]
    have hbit : (d.length + 2 ^ 15) >>> 15 = 1 := by
      rw [Nat.shiftRight_eq_div_pow]
      omega
    rw [if_pos hbit]
    have hsz1 : (((d.length + 2 ^ 15) <<< 1) % 2 ^ 16) >>> 1 = d.length := by
      rw [Nat.shiftLeft_eq, Nat.shiftRight_eq_div_pow]
      norm_num
      omega
    rw [hsz1]
    have hrd : readBytes
        (writeBytes (writeBytes (writeBytes (fun i => if i = 0 then PAGE_TYPEID_OVERFLOW else 0)
          1 (u16ToBe (d.length + 2 ^ 15))) 3 (u64ToBe nxv)) 11 d) 11 d.length = d :=
      readBytes_writeBytes _ 11 d hb
    have hrn : readBytes
        (writeBytes (writeBytes (writeBytes (fun i => if i = 0 then PAGE_TYPEID_OVERFLOW else 0)
          1 (u16ToBe (d.length + 2 ^ 15))) 3 (u64ToBe nxv)) 11 d) 3 8 = u64ToBe nxv := by
      have hcg : readBytes
          (writeBytes (writeBytes (writeBytes (fun i => if i = 0 then PAGE_TYPEID_OVERFLOW else 0)
            1 (u16ToBe (d.length + 2 ^ 15))) 3 (u64ToBe nxv)) 11 d) 3 8
          = readBytes (writeBytes (writeBytes (fun i => if i = 0 then PAGE_TYPEID_OVERFLOW else 0)
            1 (u16ToBe (d.length + 2 ^ 15))) 3 (u64ToBe nxv)) 3 8 := by
        apply readBytes_congr
        intro i hi1 hi2
        rw [writeBytes_eq_of_lt _ _ _ _ (by omega)]
      rw [hcg]
      have := readBytes_writeBytes (writeBytes (fun i => if i = 0 then PAGE_TYPEID_OVERFLOW else 0)
        1 (u16ToBe (d.length + 2 ^ 15))) 3 (u64ToBe nxv) (u64ToBe_lt _)
      rwa [u64ToBe_length] at this
    rw [hrd, hrn, u64FromBe_u64ToBe hnxv]
  | none =>
    simp only [Option.isSome_none, if_neg, OVERFLOWPAGE_AVAILABLE_SIZE, PAGE_SIZE,
      Bool.false_eq_true, not_false_eq_true] at hlen
    have hmod : d.length % 2 ^ 16 = d.length := Nat.mod_eq_of_lt (by omega)
    simp only [OverflowPage.dump, OverflowPage.load, hmod]
    have hr1 : readBytes
        (writeBytes (writeBytes (fun i => if i = 0 then PAGE_TYPEID_OVERFLOW else 0)
          1 (u16ToBe d.length)) 3 d) 1 2 = u16ToBe d.length := by
      have hcg : readBytes
          (writeBytes (writeBytes (fun i => if i = 0 then PAGE_TYPEID_OVERFLOW else 0)
            1 (u16ToBe d.length)) 3 d) 1 2
          = readBytes (writeBytes (fun i => if i = 0 then PAGE_TYPEID_OVERFLOW else 0)
            1 (u16ToBe d.length)) 1 2 := by
        apply readBytes_congr
        intro i hi1 hi2
        rw [writeBytes_eq_of_lt _ _ _ _ (by omega)]
      rw [hcg]
      have := readBytes_writeBytes (fun i => if i = 0 then PAGE_TYPEID_OVERFLOW else 0)
        1 (u16ToBe d.length) (u16ToBe_lt _)
      rwa [u16ToBe_length] at this
    rw [hr1, u16FromBe_u16ToBe (by omega)]
    have hbit : d.length >>> 15 = 0 := by
      rw [Nat.shiftRight_eq_div_pow]
      omega
    rw [if_neg (by omega)]
    have hrd : readBytes
        (writeBytes (writeBytes (fun i => if i = 0 then PAGE_TYPEID_OVERFLOW else 0)
          1 (u16ToBe d.length)) 3 d) 3 d.length = d :=
      readBytes_writeBytes _ 3 d hb
    rw [hrd]

/-- The entry-writing loop only touches bytes at or past its cursor. -/
theorem ContentPage.dumpEntriesCp_eq_of_lt (entries : List ContentEntry) (pd : PageData)
    (ptr i : Nat) (h : i < ptr) : ContentPage.dumpEntries entries pd ptr i = pd i := by
  induction entries generalizing pd ptr with
  | nil => rfl
  | cons e rest ih =>
    obtain ⟨d, op⟩ := e
    cases op with
    | some opv =>
      simp only [ContentPage.dumpEntries]
      rw [ih _ _ (by omega), writeBytes_eq_of_lt _ _ _ _ (by omega),
        writeBytes_eq_of_lt _ _ _ _ (by omega), writeBytes_eq_of_lt _ _ _ _ (by omega)]
    | none =>
      simp only [ContentPage.dumpEntries]
      rw [ih _ _ (by omega), writeBytes_eq_of_lt _ _ _ _ (by omega),
        writeBytes_eq_of_lt _ _ _ _ (by omega)]

/-- Round trip of the entry-packing loops of ContentPage. -/
theorem ContentPage.loadEntries_dumpEntries (entries : List ContentEntry) (pd : PageData)
    (ptr : Nat)
    (hb : ∀ e ∈ entries, ∀ b ∈ e.data, b < 256)
    (hop : ∀ e ∈ entries, ∀ c ∈ e.overflow_page, c < 2 ^ 64)
    (hsz : ∀ e ∈ entries, e.data.length < 2 ^ 15) :
    ContentPage.loadEntries (ContentPage.dumpEntries entries pd ptr) ptr entries.length
      = entries := by
  induction entries generalizing pd ptr with
  | nil => rfl
  | cons e rest ih =>
    obtain ⟨d, op⟩ := e
    have hd : ∀ b ∈ d, b < 256 := hb ⟨d, op⟩ (List.mem_cons_self _ _)
    have hdsz : d.length < 2 ^ 15 := hsz ⟨d, op⟩ (List.mem_cons_self _ _)
    have hmod : d.length % 2 ^ 16 = d.length := Nat.mod_eq_of_lt (by omega)
    have hbR : ∀ e2 ∈ rest, ∀ b ∈ e2.data, b < 256 :=
      fun e2 he2 => hb e2 (List.mem_cons_of_mem _ he2)
    have hopR : ∀ e2 ∈ rest, ∀ c ∈ e2.overflow_page, c < 2 ^ 64 :=
      fun e2 he2 => hop e2 (List.mem_cons_of_mem _ he2)
    have hszR : ∀ e2 ∈ rest, e2.data.length < 2 ^ 15 :=
      fun e2 he2 => hsz e2 (List.mem_cons_of_mem _ he2)
    match op with
    | some opv =>
      have hopv : opv < 2 ^ 64 := hop ⟨d, some opv⟩ (List.mem_cons_self _ _) opv rfl
      have hsz2 : (d.length % 2 ^ 16) ||| (1 <<< 15) = d.length + 2 ^ 15 := by
        rw [hmod]
        have h15 : (1 : Nat) <<< 15 = 2 ^ 15 := by decide
        rw [h15]
        exact lor_two_pow_eq_add hdsz
      simp only [List.length_cons, ContentPage.dumpEntries, ContentPage.loadEntries, hsz2]
      -- buffer: dumpEntries rest pd3 (ptr + 2 + 8 + len) over
      -- pd3 = writeBytes pd2 (ptr+2+8) d over pd2 = writeBytes pd1 (ptr+2) op
      -- over pd1 = writeBytes pd ptr size
      have hr1 : readBytes
          (ContentPage.dumpEntries rest
            (writeBytes (writeBytes (writeBytes pd ptr (u16ToBe (d.length + 2 ^ 15)))
              (ptr + 2) (u64ToBe opv)) (ptr + 2 + 8) d) (ptr + 2 + 8 + d.length)) ptr 2
          = u16ToBe (d.length + 2 ^ 15) := by
        have hcg : readBytes
            (ContentPage.dumpEntries rest
              (writeBytes (writeBytes (writeBytes pd ptr (u16ToBe (d.length + 2 ^ 15)))
                (ptr + 2) (u64ToBe opv)) (ptr + 2 + 8) d) (ptr + 2 + 8 + d.length)) ptr 2
            = readBytes (writeBytes pd ptr (u16ToBe (d.length + 2 ^ 15))) ptr 2 := by
          apply readBytes_congr
          intro i hi1 hi2
          rw [ContentPage.dumpEntriesCp_eq_of_lt _ _ _ _ (by omega),
            writeBytes_eq_of_lt _ _ _ _ (by omega),
            writeBytes_eq_of_lt _ _ _ _ (by omega)]
        rw [hcg]
        have := readBytes_writeBytes pd ptr (u16ToBe (d.length + 2 ^ 15)) (u16ToBe_lt _)
        rwa [u16ToBe_length] at this
      rw [hr1, u16FromBe_u16ToBe (by omega)]
      have hbit : (d.length + 2 ^ 15) >>> 15 = 1 := by
        rw [Nat.shiftRight_eq_div_pow]
        omega
      rw [if_pos hbit, u16_mask_const]
      have hmask : (d.length + 2 ^ 15) &&& 32767 = d.length := by
        have h1 : (32767 : Nat) = 2 ^ 15 - 1 := by norm_num
        rw [h1, Nat.and_pow_two_sub_one_eq_mod]
        omega
      rw [hmask]
      have hro : readBytes
          (ContentPage.dumpEntries rest
            (writeBytes (writeBytes (writeBytes pd ptr (u16ToBe (d.length + 2 ^ 15)))
              (ptr + 2) (u64ToBe opv)) (ptr + 2 + 8) d) (ptr + 2 + 8 + d.length)) (ptr + 2) 8
          = u64ToBe opv := by
        have hcg : readBytes
            (ContentPage.dumpEntries rest
              (writeBytes (writeBytes (writeBytes pd ptr (u16ToBe (d.length + 2 ^ 15)))
                (ptr + 2) (u64ToBe opv)) (ptr + 2 + 8) d) (ptr + 2 + 8 + d.length)) (ptr + 2) 8
            = readBytes (writeBytes (writeBytes pd ptr (u16ToBe (d.length + 2 ^ 15)))
                (ptr + 2) (u64ToBe opv)) (ptr + 2) 8 := by
          apply readBytes_congr
          intro i hi1 hi2
          rw [ContentPage.dumpEntriesCp_eq_of_lt _ _ _ _ (by omega),
            writeBytes_eq_of_lt _ _ _ _ (by omega)]
        rw [hcg]
        have := readBytes_writeBytes (writeBytes pd ptr (u16ToBe (d.length + 2 ^ 15)))
          (ptr + 2) (u64ToBe opv) (u64ToBe_lt _)
        rwa [u64ToBe_length] at this
      have hrd : readBytes
          (ContentPage.dumpEntries rest
            (writeBytes (writeBytes (writeBytes pd ptr (u16ToBe (d.length + 2 ^ 15)))
              (ptr + 2) (u64ToBe opv)) (ptr + 2 + 8) d) (ptr + 2 + 8 + d.length))
            (ptr + 2 + 8) d.length = d := by
        have hcg : readBytes
            (ContentPage.dumpEntries rest
              (writeBytes (writeBytes (writeBytes pd ptr (u16ToBe (d.length + 2 ^ 15)))
                (ptr + 2) (u64ToBe opv)) (ptr + 2 + 8) d) (ptr + 2 + 8 + d.length))
              (ptr + 2 + 8) d.length
            = readBytes (writeBytes (writeBytes (writeBytes pd ptr (u16ToBe (d.length + 2 ^ 15)))
                (ptr + 2) (u64ToBe opv)) (ptr + 2 + 8) d) (ptr + 2 + 8) d.length := by
          apply readBytes_congr
          intro i hi1 hi2
          rw [ContentPage.dumpEntriesCp_eq_of_lt _ _ _ _ (by omega)]
        rw [hcg]
        exact readBytes_writeBytes _ _ d hd
      rw [hro, hrd, u64FromBe_u64ToBe hopv]
      have htail := ih
        (writeBytes (writeBytes (writeBytes pd ptr (u16ToBe (d.length + 2 ^ 15)))
          (ptr + 2) (u64ToBe opv)) (ptr + 2 + 8) d) (ptr + 2 + 8 + d.length)
        hbR hopR hszR
      rw [htail]
    | none =>
      simp only [List.length_cons, ContentPage.dumpEntries, ContentPage.loadEntries, hmod]
      have hr1 : readBytes
          (ContentPage.dumpEntries rest
            (writeBytes (writeBytes pd ptr (u16ToBe d.length)) (ptr + 2) d)
            (ptr + 2 + d.length)) ptr 2
          = u16ToBe d.length := by
        have hcg : readBytes
            (ContentPage.dumpEntries rest
              (writeBytes (writeBytes pd ptr (u16ToBe d.length)) (ptr + 2) d)
              (ptr + 2 + d.length)) ptr 2
            = readBytes (writeBytes pd ptr (u16ToBe d.length)) ptr 2 := by
          apply readBytes_congr
          intro i hi1 hi2
          rw [ContentPage.dumpEntriesCp_eq_of_lt _ _ _ _ (by omega),
            writeBytes_eq_of_lt _ _ _ _ (by omega)]
        rw [hcg]
        have := readBytes_writeBytes pd ptr (u16ToBe d.length) (u16ToBe_lt _)
        rwa [u16ToBe_length] at this
      rw [hr1, u16FromBe_u16ToBe (by omega)]
      have hbit : d.length >>> 15 = 0 := by
        rw [Nat.shiftRight_eq_div_pow]
        omega
      rw [if_neg (by omega)]
      have hrd : readBytes
          (ContentPage.dumpEntries rest
            (writeBytes (writeBytes pd ptr (u16ToBe d.length)) (ptr + 2) d)
            (ptr + 2 + d.length)) (ptr + 2) d.length = d := by
        have hcg : readBytes
            (ContentPage.dumpEntries rest
              (writeBytes (writeBytes pd ptr (u16ToBe d.length)) (ptr + 2) d)
              (ptr + 2 + d.length)) (ptr + 2) d.length
            = readBytes (writeBytes (writeBytes pd ptr (u16ToBe d.length)) (ptr + 2) d)
              (ptr + 2) d.length := by
          apply readBytes_congr
          intro i hi1 hi2
          rw [ContentPage.dumpEntriesCp_eq_of_lt _ _ _ _ (by omega)]
        rw [hcg]
        exact readBytes_writeBytes _ _ d hd
      rw [hrd]
      have htail := ih (writeBytes (writeBytes pd ptr (u16ToBe d.length)) (ptr + 2) d)
        (ptr + 2 + d.length) hbR hopR hszR
      rw [htail]

/-- Round trip for ContentPage: dump then load restores every legal
in-memory value (at most 255 entries, each with in-range bytes, a u64
overflow pointer, and a length below 2^15). -/
theorem ContentPage.loadDumpCp (cp : ContentPage)
    (hcount : cp.entries.length < 256)
    (hb : ∀ e ∈ cp.entries, ∀ b ∈ e.data, b < 256)
    (hop : ∀ e ∈ cp.entries, ∀ c ∈ e.overflow_page, c < 2 ^ 64)
    (hsz : ∀ e ∈ cp.entries, e.data.length < 2 ^ 15) :
    ContentPage.load cp.dump = cp := by
  obtain ⟨entries⟩ := cp
  have hcount2 : entries.length < 256 := hcount
  simp only [ContentPage.load, ContentPage.dump]
  have hcnt : ContentPage.dumpEntries entries
      (fun i => if i = 0 then PAGE_TYPEID_CONTENT else
        if i = 1 then entries.length % 256 else 0) 2 1 = entries.length := by
    rw [ContentPage.dumpEntriesCp_eq_of_lt _ _ _ _ (by omega)]
    simp
    omega
  rw [hcnt]
  rw [ContentPage.loadEntries_dumpEntries entries _ 2 hb hop hsz]

/-- The B-tree entry-writing loop only touches bytes from slot i on. -/
theorem BtreeNode.dumpEntriesNode_eq_of_lt (l : List (Nat × Nat)) (pd : PageData) (i0 i : Nat)
    (h : i < UNIT_SIZE * (i0 + 1)) : BtreeNode.dumpEntries l pd i0 i = pd i := by
  induction l generalizing pd i0 with
  | nil => rfl
  | cons pr rest ih =>
    obtain ⟨id, ptr⟩ := pr
    simp only [BtreeNode.dumpEntries]
    rw [ih _ _ (by simp only [UNIT_SIZE] at *; omega),
      writeBytes_eq_of_lt _ _ _ _ (by simp only [UNIT_SIZE] at *; omega),
      writeBytes_eq_of_lt _ _ _ _ (by simp only [UNIT_SIZE] at *; omega)]

/-- Reading entry j back out of the B-tree entry-writing loop. -/
theorem BtreeNode.dumpEntries_read (l : List (Nat × Nat)) (pd : PageData) (i0 : Nat) (j : Nat)
    (hj : j < l.length) :
    readBytes (BtreeNode.dumpEntries l pd i0) (UNIT_SIZE * (i0 + j + 1)) 8
        = u64ToBe (l.get ⟨j, hj⟩).1 ∧
    readBytes (BtreeNode.dumpEntries l pd i0) (UNIT_SIZE * (i0 + j + 1) + 8) 8
        = u64ToBe (l.get ⟨j, hj⟩).2 := by
  induction l generalizing pd i0 j with
  | nil => exact absurd hj (by simp)
  | cons pr rest ih =>
    obtain ⟨id, ptr⟩ := pr
    match j with
    | 0 =>
      simp only [BtreeNode.dumpEntries, List.get]
      constructor
      · have hcg : readBytes
            (BtreeNode.dumpEntries rest
              (writeBytes (writeBytes pd (UNIT_SIZE * (i0 + 1)) (u64ToBe id))
                (UNIT_SIZE * (i0 + 1) + 8) (u64ToBe ptr)) (i0 + 1))
            (UNIT_SIZE * (i0 + 0 + 1)) 8
            = readBytes (writeBytes pd (UNIT_SIZE * (i0 + 1)) (u64ToBe id))
              (UNIT_SIZE * (i0 + 1)) 8 := by
          apply readBytes_congr
          intro i hi1 hi2
          rw [BtreeNode.dumpEntriesNode_eq_of_lt _ _ _ _
              (by simp only [UNIT_SIZE] at *; omega),
            writeBytes_eq_of_lt _ _ _ _ (by simp only [UNIT_SIZE] at *; omega)]
        rw [show UNIT_SIZE * (i0 + 0 + 1) = UNIT_SIZE * (i0 + 1) by ring] at *
        rw [hcg]
        have := readBytes_writeBytes pd (UNIT_SIZE * (i0 + 1)) (u64ToBe id) (u64ToBe_lt _)
        rwa [u64ToBe_length] at this
      · have hcg : readBytes
            (BtreeNode.dumpEntries rest
              (writeBytes (writeBytes pd (UNIT_SIZE * (i0 + 1)) (u64ToBe id))
                (UNIT_SIZE * (i0 + 1) + 8) (u64ToBe ptr)) (i0 + 1))
            (UNIT_SIZE * (i0 + 0 + 1) + 8) 8
            = readBytes (writeBytes (writeBytes pd (UNIT_SIZE * (i0 + 1)) (u64ToBe id))
                (UNIT_SIZE * (i0 + 1) + 8) (u64ToBe ptr))
              (UNIT_SIZE * (i0 + 1) + 8) 8 := by
          apply readBytes_congr
          intro i hi1 hi2
          rw [BtreeNode.dumpEntriesNode_eq_of_lt _ _ _ _
              (by simp only [UNIT_SIZE] at *; omega)]
        rw [show UNIT_SIZE * (i0 + 0 + 1) = UNIT_SIZE * (i0 + 1) by ring] at *
        rw [hcg]
        have := readBytes_writeBytes (writeBytes pd (UNIT_SIZE * (i0 + 1)) (u64ToBe id))
          (UNIT_SIZE * (i0 + 1) + 8) (u64ToBe ptr) (u64ToBe_lt _)
        rwa [u64ToBe_length] at this
    | j1 + 1 =>
      simp only [BtreeNode.dumpEntries, List.get]
      have hj1 : j1 < rest.length := by simpa using hj
      have := ih (writeBytes (writeBytes pd (UNIT_SIZE * (i0 + 1)) (u64ToBe id))
        (UNIT_SIZE * (i0 + 1) + 8) (u64ToBe ptr)) (i0 + 1) j1 hj1
      rw [show UNIT_SIZE * (i0 + (j1 + 1) + 1) = UNIT_SIZE * ((i0 + 1) + j1 + 1) by ring]
      exact this

/-- Round trip for BtreeNode serialization: dump then load restores
ids, ptrs and node type of every legal value, and resets page_count to
the Default value 0, which BtreeNode::load never reads from the page. -/
theorem BtreeNode.loadDumpNode (n : BtreeNode)
    (hlen : n.ids.length < 256)
    (heq : n.ids.length = n.ptrs.length)
    (htype : n.node_type < 256)
    (hids : ∀ v ∈ n.ids, v < 2 ^ 64)
    (hptrs : ∀ v ∈ n.ptrs, v < 2 ^ 64) :
    BtreeNode.load n.dump = { n with page_count := 0 } := by
  obtain ⟨pc, ids, ptrs, nt⟩ := n
  simp only [BtreeNode.dump, BtreeNode.load, BtreeNode.len] at *
  have hzlen : (ids.zip ptrs).length = ids.length := by
    rw [List.length_zip]
    omega
  have h0 : BtreeNode.dumpEntries (ids.zip ptrs)
      (fun i => if i = 0 then nt % 256 else if i = 1 then ids.length % 256 else 0) 0 0
      = nt := by
    rw [BtreeNode.dumpEntriesNode_eq_of_lt _ _ _ _ (by simp [UNIT_SIZE])]
    simp [Nat.mod_eq_of_lt htype]
  have h1 : BtreeNode.dumpEntries (ids.zip ptrs)
      (fun i => if i = 0 then nt % 256 else if i = 1 then ids.length % 256 else 0) 0 1
      = ids.length := by
    rw [BtreeNode.dumpEntriesNode_eq_of_lt _ _ _ _ (by simp [UNIT_SIZE])]
    simp [Nat.mod_eq_of_lt hlen]
  rw [h0, h1]
  congr 1
  · -- ids
    apply List.ext_getElem (by simp)
    intro j hj1 hj2
    simp only [List.getElem_map, List.getElem_range]
    have hjz : j < (ids.zip ptrs).length := by
      rw [hzlen]
      simpa using hj1
    have hrd := (BtreeNode.dumpEntries_read (ids.zip ptrs)
      (fun i => if i = 0 then nt % 256 else if i = 1 then ids.length % 256 else 0) 0 j hjz).1
    rw [show UNIT_SIZE * (0 + j + 1) = UNIT_SIZE * (j + 1) by ring] at hrd
    rw [hrd]
    have hget : (ids.zip ptrs).get ⟨j, hjz⟩ = (ids[j], ptrs.get ⟨j, by omega⟩) := by
      simp [List.get_eq_getElem, List.getElem_zip]
    rw [hget]
    exact u64FromBe_u64ToBe (hids _ (List.getElem_mem _))
  · -- ptrs
    apply List.ext_getElem (by simp; omega)
    intro j hj1 hj2
    simp only [List.getElem_map, List.getElem_range]
    have hjz : j < (ids.zip ptrs).length := by
      rw [hzlen]
      simpa using hj1
    have hrd := (BtreeNode.dumpEntries_read (ids.zip ptrs)
      (fun i => if i = 0 then nt % 256 else if i = 1 then ids.length % 256 else 0) 0 j hjz).2
    rw [show UNIT_SIZE * (0 + j + 1) = UNIT_SIZE * (j + 1) by ring] at hrd
    rw [hrd]
    have hget : (ids.zip ptrs).get ⟨j, hjz⟩ = (ids.get ⟨j, by omega⟩, ptrs.get ⟨j, by omega⟩) := by
      simp [List.get_eq_getElem, List.getElem_zip]
    rw [hget]
    exact u64FromBe_u64ToBe (hptrs _ (List.getElem_mem _))

/-- Claim C2 (code bug): BtreeNode::find_unused is specified to return
the smallest 64-bit integer not present and never a present key; on a
root leaf holding keys {0, 1} the code returns 1, and on a root leaf
holding {0} it returns 0 — both keys currently present.  The top-level
function returns the leaf's reported maximum (or the fallback 0)
without the + 1 its internal recursion applies, contradicting its own
"Find unused id" documentation. -/
theorem C2_find_unused_returns_present_key :
    (BtreeNode.find_unused 3 leaf01 (emptySt 4)).1 = .ok 1 ∧ 1 ∈ leaf01.ids ∧
    (BtreeNode.find_unused 3 leafZ (emptySt 4)).1 = .ok 0 ∧ 0 ∈ leafZ.ids := by decide

/-- Claim C3 (code bug): with pages 1 and 2 allocated (bitmap bits 0,
1, 2 set), PageManage::release(1) is specified to clear exactly page
1's bit; the code instead writes the data of a freshly constructed
all-zero BitmapPage over the governing bitmap page, so after the call
page 2's bit — and even the bitmap page's own bit 0 — are clear. -/
theorem C3_release_zeroes_whole_bitmap :
    ((stC3.pages 0).map (fun p => BitmapPage.get_used { page := p } 2)) = some true ∧
    (PageManage.release stC3 1).1 = .ok () ∧
    (((PageManage.release stC3 1).2.pages 0).map
      (fun p => BitmapPage.get_used { page := p } 2)) = some false ∧
    (((PageManage.release stC3 1).2.pages 0).map
      (fun p => BitmapPage.get_used { page := p } 0)) = some false := by decide

/-- Claim C10 (code bug): PageManage::release removes the released
count from the page map but not from the cache eviction queue.  After
alloc on a fresh store with cache capacity 1 followed by release(1),
count 1 sits in the queue with no page behind it, and the next alloc's
eviction pass indexes the map at the missing key and panics — the
claimed invariant that eviction always finds its victim fails. -/
theorem C10_release_breaks_cache_invariant :
    1 ∈ st10b.cache_pages ∧ (st10b.pages 1).isNone = true ∧
    (PageManage.alloc st10b 3 .general).1.isCrash = true := by decide

/-- Claim C9 counterexample: BtreeNode serialization does not round
trip on the page_count field — dump never writes it and load restores
the Default value 0, so an empty leaf with page_count 1 comes back
changed. -/
theorem C9_counterexample : BtreeNode.load (BtreeNode.dump nodeA) ≠ nodeA := by decide

/-- Claim C9 (amended): load(dump v) = v holds in full for every legal
ContentPage and OverflowPage; for BtreeNode it holds on every field
except page_count, which load resets to 0 because dump never persists
it. -/
theorem C9_load_dump_roundtrip :
    (∀ n : BtreeNode, n.ids.length < 256 → n.ids.length = n.ptrs.length →
      n.node_type < 256 → (∀ v ∈ n.ids, v < 2 ^ 64) → (∀ v ∈ n.ptrs, v < 2 ^ 64) →
      BtreeNode.load n.dump = { n with page_count := 0 }) ∧
    (∀ cp : ContentPage, cp.entries.length < 256 →
      (∀ e ∈ cp.entries, ∀ b ∈ e.data, b < 256) →
      (∀ e ∈ cp.entries, ∀ c ∈ e.overflow_page, c < 2 ^ 64) →
      (∀ e ∈ cp.entries, e.data.length < 2 ^ 15) →
      ContentPage.load cp.dump = cp) ∧
    (∀ p : OverflowPage, (∀ b ∈ p.data, b < 256) →
      p.data.length ≤ (if p.next.isSome then OVERFLOWED_OVERFLOWPAGE_AVAILABLE_SIZE
        else OVERFLOWPAGE_AVAILABLE_SIZE) →
      (∀ nx ∈ p.next, nx < 2 ^ 64) →
      OverflowPage.load p.dump = p) :=
  ⟨fun n h1 h2 h3 h4 h5 => BtreeNode.loadDumpNode n h1 h2 h3 h4 h5,
   fun cp h1 h2 h3 h4 => ContentPage.loadDumpCp cp h1 h2 h3 h4,
   fun p h1 h2 h3 => OverflowPage.loadDumpOv p h1 h2 h3⟩

/-- Claim C9 witness: the round trip evaluated at one concrete legal
value of each entity. -/
theorem C9_load_dump_roundtrip_witness :
    BtreeNode.load (BtreeNode.dump nodeW) = { nodeW with page_count := 0 } ∧
    ContentPage.load cpW.dump = cpW ∧
    OverflowPage.load opW.dump = opW :=
  ⟨(C9_load_dump_roundtrip.1 nodeW (by decide) (by decide) (by decide) (by decide) (by decide)),
   (C9_load_dump_roundtrip.2.1 cpW (by decide) (by decide) (by decide) (by decide)),
   (C9_load_dump_roundtrip.2.2 opW (by decide) (by decide) (by decide))⟩

/-- Claim C8 counterexample: on a fresh store, find_page_by_type(0, 3)
returns count 0, which is a bitmap slot (0 mod (M+1) = 0): the skip
test (c % 32768) + 1 == 0 never fires, the missing page triggers an
alloc of the lowest free count, and byte 0 of the bitmap page at the
scan position is stamped with the content tag. -/
theorem C8_counterexample :
    (PageManage.find_page_by_type (emptySt 1024) 0 PAGE_TYPEID_CONTENT 5).1 = .ok 0 ∧
    0 % (BITMAP_MANAGED_SIZE + 1) = 0 ∧
    (((PageManage.find_page_by_type (emptySt 1024) 0 PAGE_TYPEID_CONTENT 5).2.pages 0).map
      (fun p => p.data 0)) = some PAGE_TYPEID_CONTENT := by decide

set_option maxRecDepth 100000 in
/-- Claim C4 counterexample: MAX_IDS is 255, not 254.  An insertion
that brings a root leaf to 254 entries — the fanout limit claimed to
trigger a split — returns no separator (no split happens) and leaves a
single leaf of 254 entries. -/
theorem C4_counterexample :
    MAX_IDS = 255 ∧
    (BtreeNode.insert_id_nontop 3 leaf253 stRoot 253 99).1 = .ok none ∧
    (BtreeNode.insert_id_nontop 3 leaf253 stRoot 253 99).2.1.len = 254 := by decide

/-- Claim C6 counterexample: inserting key 3 into a root leaf holding
the single key 5 (strictly increasing, 3 not present) appends 3 after
5: BtreeNode::add only matches its insertion condition at the last
slot when the new key is below the node's minimum, so the keys come
back as [5, 3], no longer strictly increasing. -/
theorem C6_counterexample :
    strictlyInc leaf5.ids = true ∧ 3 ∉ leaf5.ids ∧
    (BtreeNode.insert_id 3 leaf5 stRoot 3 77).1 = .ok () ∧
    (BtreeNode.insert_id 3 leaf5 stRoot 3 77).2.1.ids = [5, 3] ∧
    strictlyInc (BtreeNode.insert_id 3 leaf5 stRoot 3 77).2.1.ids = false := by decide

/-- strictlyInc is the pairwise < ordering. -/
theorem strictlyInc_iff_pairwise (l : List Nat) :
    strictlyInc l = true ↔ l.Pairwise (· < ·) := by
  have hchain : strictlyInc l = true ↔ l.Chain' (· < ·) := by
    induction l with
    | nil => simp [strictlyInc]
    | cons a t ih =>
      match t with
      | [] => simp [strictlyInc]
      | b :: t2 =>
        simp only [strictlyInc, Bool.and_eq_true, decide_eq_true_eq, List.chain'_cons, ih]
  rw [hchain, List.chain'_iff_pairwise]

/-- insertIdx is a take/cons/drop splice. -/
theorem insertIdx_eq_take_cons_drop (l : List Nat) (p : Nat) (x : Nat) (h : p ≤ l.length) :
    l.insertIdx p x = l.take p ++ x :: l.drop p := by
  induction l generalizing p with
  | nil =>
    match p with
    | 0 => rfl
    | p + 1 => simp at h
  | cons a t ih =>
    match p with
    | 0 => rfl
    | p + 1 =>
      simp only [List.insertIdx_succ_cons, List.take_succ_cons, List.drop_succ_cons,
        List.cons_append]
      rw [ih p (by simpa using h)]

/-- Splicing a key between the elements below and above it preserves
strict increase. -/
theorem pairwise_insertIdx (l : List Nat) (p : Nat) (x : Nat)
    (h : p ≤ l.length)
    (hs : l.Pairwise (· < ·))
    (hlo : ∀ j, (hj : j < p) → l[j] < x)
    (hhi : ∀ j, (hj : j < l.length) → p ≤ j → x < l[j]) :
    (l.insertIdx p x).Pairwise (· < ·) := by
  rw [insertIdx_eq_take_cons_drop l p x h]
  have hsplit : l = l.take p ++ l.drop p := (List.take_append_drop p l).symm
  have hsl : (l.take p ++ l.drop p).Pairwise (· < ·) := by rw [← hsplit]; exact hs
  rw [List.pairwise_append] at hsl
  rw [List.pairwise_append]
  refine ⟨hsl.1, ?_, ?_⟩
  · rw [List.pairwise_cons]
    refine ⟨?_, hsl.2.1⟩
    intro b hb
    obtain ⟨j, hj, hbj⟩ := List.getElem_of_mem hb
    rw [List.getElem_drop] at hbj
    subst hbj
    exact hhi (p + j) (by rw [List.length_drop] at hj; omega) (by omega)
  · intro a ha b hb
    rcases List.mem_cons.mp hb with hbx | hbd
    · subst hbx
      obtain ⟨i, hi, hai⟩ := List.getElem_of_mem ha
      have hip : i < p := by rw [List.length_take] at hi; omega
      have hil : i < l.length := by rw [List.length_take] at hi; omega
      rw [List.getElem_take] at hai
      subst hai
      exact hlo i hip
    · exact hsl.2.2 a ha b hbd

/-- The add loop keeps the keys strictly increasing as long as the new
key exceeds the key at the current slot. -/
theorem BtreeNode.addLoop_sorted (n : BtreeNode) (id ptr : Nat)
    (hs : n.ids.Pairwise (· < ·)) (hmem : id ∉ n.ids) :
    ∀ remaining i0, i0 + remaining = n.ids.length → i0 < n.ids.length →
      n.ids.getD i0 0 < id →
      ((n.addLoop id ptr i0 remaining).ids).Pairwise (· < ·) := by
  have hpair : ∀ i j, (hj : j < n.ids.length) → (hij : i < j) → n.ids[i] < n.ids[j] :=
    fun i j hj hij => (List.pairwise_iff_getElem.mp hs) i j (by omega) hj hij
  have hL : n.len = n.ids.length := rfl
  intro remaining
  induction remaining with
  | zero =>
    intro i0 h1 h2 h3
    omega
  | succ remaining ih =>
    intro i0 h1 h2 h3
    have hgd : n.ids.getD i0 0 = n.ids[i0] := List.getD_eq_getElem _ _ _
    simp only [BtreeNode.addLoop]
    by_cases hc : n.insertCond id i0 = true
    · rw [if_pos hc]
      simp only [BtreeNode.insertCond, decide_eq_true_eq, hL] at hc
      simp only [BtreeNode.insertAt]
      apply pairwise_insertIdx _ _ _ (by omega) hs
      · intro j hj
        rcases Nat.lt_or_ge j i0 with hji | hji
        · exact lt_trans (hpair j i0 h2 hji) (hgd ▸ h3)
        · have hje : j = i0 := by omega
          subst hje
          exact hgd ▸ h3
      · intro j hjlen hji
        rcases hc with ⟨hlt, _, hup⟩ | hlast
        · have hi1 : i0 + 1 < n.ids.length := by omega
          have hgd1 : n.ids.getD (i0 + 1) 0 = n.ids[i0 + 1] := List.getD_eq_getElem _ _ _
          rw [hgd1] at hup
          rcases Nat.eq_or_lt_of_le hji with hje | hjgt
          · subst hje
            exact hup
          · exact lt_trans hup (hpair (i0 + 1) j hjlen hjgt)
        · omega
    · rw [if_neg hc]
      simp only [BtreeNode.insertCond, decide_eq_true_eq, hL, not_or] at hc
      have hnotlast : i0 ≠ n.ids.length - 1 := hc.2
      have hlt : i0 < n.ids.length - 1 := by omega
      have hi1 : i0 + 1 < n.ids.length := by omega
      have hgd1 : n.ids.getD (i0 + 1) 0 = n.ids[i0 + 1] := List.getD_eq_getElem _ _ _
      have hup : ¬ (id < n.ids.getD (i0 + 1) 0) := by
        intro hcontra
        exact hc.1 ⟨hlt, h3, hcontra⟩
      have hne : n.ids[i0 + 1] ≠ id := by
        intro hcontra
        exact hmem (hcontra ▸ List.getElem_mem hi1)
      apply ih (i0 + 1) (by omega) (by omega)
      rw [hgd1]
      rw [hgd1] at hup
      omega

/-- BtreeNode::add keeps the keys strictly increasing whenever the new
key is absent and larger than the node's first (smallest) key, or the
node is empty. -/
theorem BtreeNode.add_strictlyInc (n : BtreeNode) (id ptr : Nat)
    (hs : strictlyInc n.ids = true) (hmem : id ∉ n.ids)
    (hmin : ∀ m ∈ n.ids.head?, m < id) :
    strictlyInc ((n.add id ptr).ids) = true := by
  rw [strictlyInc_iff_pairwise] at hs ⊢
  unfold BtreeNode.add
  by_cases he : n.ids.isEmpty
  · rw [if_pos he]
    have : n.ids = [] := List.isEmpty_iff.mp he
    simp [BtreeNode.push, this]
  · rw [if_neg he]
    have hne : n.ids ≠ [] := by
      intro hcontra
      exact he (List.isEmpty_iff.mpr hcontra)
    have hpos : 0 < n.ids.length := List.length_pos.mpr hne
    apply BtreeNode.addLoop_sorted n id ptr hs hmem n.len 0 (by simp [BtreeNode.len]) hpos
    have hhead : n.ids.head? = some (n.ids[0]) := by
      rw [List.head?_eq_getElem?]
      rw [List.getElem?_eq_getElem hpos]
    have := hmin (n.ids[0]) (by rw [hhead]; rfl)
    rw [List.getD_eq_getElem _ _ hpos]
    exact this

/-- Claim C6 (amended): key insertion preserves strictly increasing
keys provided the new key is absent and exceeds the node's smallest
key (or the node is empty).  Stated for a tree consisting of a root
leaf with room to spare: insert_id mutates the root exactly by
BtreeNode::add, and the resulting keys remain strictly increasing.
The unamended claim fails for a key below the minimum, which add
appends at the end (see the counterexample). -/
theorem C6_insert_preserves_strictly_increasing
    (n : BtreeNode) (st : PageManage) (fuel id value : Nat)
    (hleaf : n.is_leaf = true)
    (hs : strictlyInc n.ids = true) (hmem : id ∉ n.ids)
    (hmin : ∀ m ∈ n.ids.head?, m < id)
    (hsize : (n.add id value).len < MAX_IDS) :
    (BtreeNode.insert_id (fuel + 1) n st id value).2.1 = n.add id value ∧
    strictlyInc ((BtreeNode.insert_id (fuel + 1) n st id value).2.1.ids) = true := by
  have hres : (BtreeNode.insert_id (fuel + 1) n st id value).2.1 = n.add id value := by
    simp only [BtreeNode.insert_id, BtreeNode.insert_id_nontop]
    rw [if_pos hleaf]
    rcases hmd : st.modifyDrop (n.add id value).page_count (n.add id value).dump with ⟨r, st1⟩
    cases r with
    | ok u =>
      cases u
      simp only [hmd]
      rw [if_neg (by omega)]
    | err => simp only [hmd, ROut.fail]
    | crash => simp only [hmd, ROut.fail]
    | nofuel => simp only [hmd, ROut.fail]
  refine ⟨hres, ?_⟩
  rw [hres]
  exact BtreeNode.add_strictlyInc n id value hs hmem hmin

/-- Claim C6 witness: inserting 7 into the root leaf holding key 5. -/
theorem C6_insert_preserves_strictly_increasing_witness :
    (BtreeNode.insert_id 1 leaf5 stRoot 7 70).2.1 = leaf5.add 7 70 ∧
    strictlyInc ((BtreeNode.insert_id 1 leaf5 stRoot 7 70).2.1.ids) = true :=
  C6_insert_preserves_strictly_increasing leaf5 stRoot 0 7 70 (by decide) (by decide)
    (by decide) (by decide) (by decide)

/-- A failure retag is never a success. -/
theorem ROut.fail_ne_ok {α β : Type} (f : ROut α) (x : β) : f.fail ≠ ROut.ok x := by
  cases f <;> simp [ROut.fail]

/-- PageManage::modify on a cached page is a pure in-place update. -/
theorem PageManage.modify_hit (st : PageManage) (c : Nat) (d : PageData)
    (h : (st.pages c).isSome = true) :
    st.modify c d = (.ok (), st.updatePage c (fun p => p.modifyData d)) := by
  rcases hp : st.pages c with _ | p
  · rw [hp] at h
    simp at h
  · simp only [PageManage.modify, PageManage.get, hp]

/-- PageManage::modify with a dropped result on a cached page. -/
theorem PageManage.modifyDrop_hit (st : PageManage) (c : Nat) (d : PageData)
    (h : (st.pages c).isSome = true) :
    st.modifyDrop c d = (.ok (), st.updatePage c (fun p => p.modifyData d)) := by
  simp only [PageManage.modifyDrop, PageManage.modify_hit st c d h]

/-- A successful alloc caches the returned page under its count. -/
theorem PageManage.alloc_ok_pages (st : PageManage) (fuel : Nat) (t : PageType)
    (pg : Page) (st1 : PageManage) (h : st.alloc fuel t = (.ok pg, st1)) :
    st1.pages pg.count = some pg := by
  unfold PageManage.alloc at h
  rcases hlc : st.limit_cache with ⟨rl, stl⟩
  rw [hlc] at h
  cases rl with
  | ok u =>
    dsimp only at h
    rcases hfu : stl.find_unused_page fuel with ⟨rf, stf⟩
    rw [hfu] at h
    cases rf with
    | ok count =>
      dsimp only at h
      rw [Prod.mk.injEq] at h
      obtain ⟨h1, h2⟩ := h
      rw [ROut.ok.injEq] at h1
      subst h1
      rw [← h2]
      simp [Page.new]
    | err => simp at h
    | crash => simp at h
    | nofuel => simp at h
  | err => dsimp only at h; simp at h
  | crash => dsimp only at h; simp at h
  | nofuel => dsimp only at h; simp at h

/-- Claim C4 (amended): the fanout limit is MAX_IDS = 255 (PAGE_SIZE /
16 - 1), not 254.  When BtreeNode::part splits a node of 255 entries,
it pops floor(255/2) = 127 entries into a new right node: the split
node keeps its first 128 entries, the returned separator is the old
key at index 128, and the freshly allocated right page holds a dump of
the upper 127 entries.  An insertion that only brings a leaf to 254
entries triggers no split at all (see the counterexample). -/
theorem C4_split_at_255 (n : BtreeNode) (st : PageManage) (fuel sep rp : Nat)
    (hlen : n.ids.length = MAX_IDS)
    (hp : (n.part st fuel).1 = .ok (sep, rp))
    (hne : rp ≠ n.page_count)
    (hroot : (((st.alloc fuel .btreePage).2).pages n.page_count).isSome = true) :
    (n.part st fuel).2.1.ids = n.ids.take 128 ∧
    (n.part st fuel).2.1.ids.length = 128 ∧
    sep = (n.ids.drop 128).headD 0 ∧
    (n.ids.drop 128).length = 127 ∧
    ((n.part st fuel).2.2.pages rp).map Page.data
      = some (BtreeNode.dump
          { page_count := rp, ids := n.ids.drop 128, ptrs := n.ptrs.drop 128,
            node_type := n.node_type }) := by
  have hM : MAX_IDS = 255 := by decide
  rw [hM] at hlen
  have hkeep : n.len - n.len / 2 = 128 := by
    simp only [BtreeNode.len]
    omega
  simp only [BtreeNode.part, hkeep] at hp ⊢
  rcases ha : st.alloc fuel .btreePage with ⟨ra, st1⟩
  cases ra with
  | ok pg =>
    rw [ha] at hp hroot
    dsimp only at hp hroot ⊢
    have hmem1 : (st1.pages pg.count).isSome = true := by
      rw [PageManage.alloc_ok_pages st fuel .btreePage pg st1 ha]
      rfl
    set g := fun p : Page => p.modifyData (BtreeNode.dump
      { page_count := pg.count, ids := n.ids.drop 128, ptrs := n.ptrs.drop 128,
        node_type := n.node_type }) with hg
    have hroot2 : (((st1.updatePage pg.count g).pages
        ({ n with ids := n.ids.take 128, ptrs := n.ptrs.take 128 } : BtreeNode).page_count)).isSome
        = true := by
      simp only [PageManage.updatePage]
      by_cases hcp : n.page_count = pg.count
      · rw [if_pos hcp]
        rw [hcp] at hroot
        rcases hq : st1.pages pg.count with _ | q
        · rw [hq] at hroot
          simp at hroot
        · rfl
      · rw [if_neg hcp]
        exact hroot
    rw [PageManage.modifyDrop_hit _ _ _ hroot2] at hp ⊢
    dsimp only at hp ⊢
    have hdlen : (n.ids.drop 128).length = 127 := by
      rw [List.length_drop]
      omega
    have hdne : n.ids.drop 128 ≠ [] := by
      intro hcontra
      rw [hcontra] at hdlen
      simp at hdlen
    rcases hh : (n.ids.drop 128).head? with _ | hv
    · exact absurd (List.head?_eq_none_iff.mp hh) hdne
    · rw [hh] at hp
      dsimp only at hp ⊢
      rw [ROut.ok.injEq, Prod.mk.injEq] at hp
      obtain ⟨hsep, hrp⟩ := hp
      subst hsep
      subst hrp
      refine ⟨rfl, ?_, ?_, hdlen, ?_⟩
      · simp only [List.length_take]
        omega
      · rw [List.headD_eq_head?, hh]
        rfl
      · simp only [PageManage.updatePage]
        rw [if_neg hne]
        simp only [if_true]
        rw [PageManage.alloc_ok_pages st fuel .btreePage pg st1 ha]
        rfl
  | err =>
    rw [ha] at hp
    dsimp only at hp
    exact absurd hp (ROut.fail_ne_ok _ _)
  | crash =>
    rw [ha] at hp
    dsimp only at hp
    exact absurd hp (ROut.fail_ne_ok _ _)
  | nofuel =>
    rw [ha] at hp
    dsimp only at hp
    exact absurd hp (ROut.fail_ne_ok _ _)

set_option maxRecDepth 400000 in
/-- Claim C4 witness: splitting the 255-entry root leaf with keys
0..254 keeps 0..127, separates at key 128, and writes keys 128..254 to
the freshly allocated page 2. -/
theorem C4_split_at_255_witness :
    (leaf255.part stRoot 3).2.1.ids = leaf255.ids.take 128 ∧
    (leaf255.part stRoot 3).2.1.ids.length = 128 ∧
    128 = (leaf255.ids.drop 128).headD 0 ∧
    (leaf255.ids.drop 128).length = 127 ∧
    ((leaf255.part stRoot 3).2.2.pages 2).map Page.data
      = some (BtreeNode.dump
          { page_count := 2, ids := leaf255.ids.drop 128, ptrs := leaf255.ptrs.drop 128,
            node_type := leaf255.node_type }) :=
  C4_split_at_255 leaf255 stRoot 3 128 2 (by decide) (by decide) (by decide) (by decide)

/-- The add loop never changes the node's page count. -/
theorem BtreeNode.addLoop_page_count (n : BtreeNode) (id ptr : Nat) :
    ∀ remaining i, (n.addLoop id ptr i remaining).page_count = n.page_count := by
  intro remaining
  induction remaining with
  | zero => intro i; rfl
  | succ r ih =>
    intro i
    simp only [BtreeNode.addLoop]
    by_cases hc : n.insertCond id i = true
    · rw [if_pos hc]
      rfl
    · rw [if_neg hc]
      exact ih (i + 1)

/-- BtreeNode::add never changes the node's page count. -/
theorem BtreeNode.add_page_count (n : BtreeNode) (id ptr : Nat) :
    (n.add id ptr).page_count = n.page_count := by
  unfold BtreeNode.add
  by_cases he : n.ids.isEmpty
  · rw [if_pos he]
    rfl
  · rw [if_neg he]
    exact BtreeNode.addLoop_page_count n id ptr n.len 0

/-- BtreeNode::part never changes the split node's page count. -/
theorem BtreeNode.part_page_count (n : BtreeNode) (st : PageManage) (fuel : Nat) :
    (n.part st fuel).2.1.page_count = n.page_count := by
  simp only [BtreeNode.part]
  split
  · split
    · split
      · rfl
      · rfl
    · rfl
  · rfl

/-- The internal-branch insertion loop never changes the node's page
count, whatever the recursive descent does. -/
theorem BtreeNode.insertLoop_page_count
    (rec : BtreeNode → PageManage → ROut (Option (Nat × Nat)) × BtreeNode × PageManage)
    (partFuel id value : Nat) :
    ∀ remaining n st i,
      (BtreeNode.insertLoop rec partFuel id value n st i remaining).2.1.page_count
        = n.page_count := by
  intro remaining
  induction remaining with
  | zero => intro n st i; rfl
  | succ r ih =>
    intro n st i
    simp only [BtreeNode.insertLoop]
    by_cases hc : n.insertCond id i = true
    · rw [if_pos hc]
      rcases hg : st.get (n.ptrs.getD i 0) with ⟨rg, st1⟩
      cases rg with
      | ok pg =>
        dsimp only
        rcases hr : rec (BtreeNode.new pg.count pg.data) st1 with ⟨rr, cn, st2⟩
        cases rr with
        | ok optRes =>
          dsimp only
          cases optRes with
          | some pr =>
            obtain ⟨id2, page⟩ := pr
            dsimp only
            rcases hmd : st2.modifyDrop (n.add id2 page).page_count (n.add id2 page).dump
              with ⟨rm, st3⟩
            cases rm with
            | ok u =>
              dsimp only
              by_cases hfull : (n.add id2 page).len ≥ MAX_IDS
              · rw [if_pos hfull]
                rcases hpt : (n.add id2 page).part st3 partFuel with ⟨rp2, n2, st4⟩
                have hpc := BtreeNode.part_page_count (n.add id2 page) st3 partFuel
                rw [hpt] at hpc
                dsimp only at hpc
                cases rp2 with
                | ok pr2 =>
                  dsimp only
                  rw [hpc, BtreeNode.add_page_count]
                | err => dsimp only; rw [hpc, BtreeNode.add_page_count]
                | crash => dsimp only; rw [hpc, BtreeNode.add_page_count]
                | nofuel => dsimp only; rw [hpc, BtreeNode.add_page_count]
              · rw [if_neg hfull]
                rw [ih, BtreeNode.add_page_count]
            | err => simp only [ROut.fail]; rw [BtreeNode.add_page_count]
            | crash => simp only [ROut.fail]; rw [BtreeNode.add_page_count]
            | nofuel => simp only [ROut.fail]; rw [BtreeNode.add_page_count]
          | none =>
            dsimp only
            by_cases hfull : n.len ≥ MAX_IDS
            · rw [if_pos hfull]
              rcases hpt : n.part st2 partFuel with ⟨rp2, n2, st4⟩
              have hpc := BtreeNode.part_page_count n st2 partFuel
              rw [hpt] at hpc
              dsimp only at hpc
              cases rp2 with
              | ok pr2 => dsimp only; rw [hpc]
              | err => dsimp only; rw [hpc]
              | crash => dsimp only; rw [hpc]
              | nofuel => dsimp only; rw [hpc]
            · rw [if_neg hfull]
              exact ih n st2 (i + 1)
        | err => rfl
        | crash => rfl
        | nofuel => rfl
      | err => rfl
      | crash => rfl
      | nofuel => rfl
    · rw [if_neg hc]
      exact ih n st (i + 1)

/-- insert_id_nontop never changes the node's page count. -/
theorem BtreeNode.insert_id_nontop_page_count (fuel : Nat) (n : BtreeNode) (st : PageManage)
    (id value : Nat) :
    (BtreeNode.insert_id_nontop fuel n st id value).2.1.page_count = n.page_count := by
  cases fuel with
  | zero => rfl
  | succ fuel =>
    simp only [BtreeNode.insert_id_nontop]
    by_cases hl : n.is_leaf = true
    · rw [if_pos hl]
      rcases hmd : st.modifyDrop (n.add id value).page_count (n.add id value).dump with ⟨rm, st1⟩
      cases rm with
      | ok u =>
        dsimp only
        by_cases hfull : (n.add id value).len ≥ MAX_IDS
        · rw [if_pos hfull]
          rcases hpt : (n.add id value).part st1 (fuel + 1) with ⟨rp2, n2, st4⟩
          have hpc := BtreeNode.part_page_count (n.add id value) st1 (fuel + 1)
          rw [hpt] at hpc
          dsimp only at hpc
          cases rp2 with
          | ok pr2 => dsimp only; rw [hpc, BtreeNode.add_page_count]
          | err => dsimp only; rw [hpc, BtreeNode.add_page_count]
          | crash => dsimp only; rw [hpc, BtreeNode.add_page_count]
          | nofuel => dsimp only; rw [hpc, BtreeNode.add_page_count]
        · rw [if_neg hfull]
          exact BtreeNode.add_page_count n id value
      | err => dsimp only; exact BtreeNode.add_page_count n id value
      | crash => dsimp only; exact BtreeNode.add_page_count n id value
      | nofuel => dsimp only; exact BtreeNode.add_page_count n id value
    · rw [if_neg hl]
      exact BtreeNode.insertLoop_page_count _ (fuel + 1) id value n.len n st 0

/-- updatePage never changes which counts are present. -/
theorem PageManage.updatePage_isSome (st : PageManage) (c : Nat) (f : Page → Page) (k : Nat) :
    ((st.updatePage c f).pages k).isSome = (st.pages k).isSome := by
  simp only [PageManage.updatePage]
  by_cases h : k = c
  · rw [if_pos h]
    subst h
    rcases st.pages k with _ | p
    · rfl
    · rfl
  · rw [if_neg h]

/-- Claim C7: when insert_id_nontop reports a split of the root
(separator sep, right page rp), insert_id copies the root's remaining
contents n1 into a freshly allocated left child page and rebuilds the
root in place: the returned root keeps the original page count, is an
internal node, and holds exactly the two entries (n1's first key, left
page count) and (sep, rp); the left page's buffer is the dump of n1's
contents. -/
theorem C7_root_split_rebuild (fuel : Nat) (n : BtreeNode) (st : PageManage)
    (id value sep rp : Nat) (n1 : BtreeNode) (pg : Page) (hv : Nat)
    (hnt : (BtreeNode.insert_id_nontop fuel n st id value).1 = .ok (some (sep, rp)))
    (hn1 : (BtreeNode.insert_id_nontop fuel n st id value).2.1 = n1)
    (halloc : (((BtreeNode.insert_id_nontop fuel n st id value).2.2).alloc fuel .btreePage).1
      = .ok pg)
    (hhead : n1.ids.head? = some hv)
    (hne : pg.count ≠ n1.page_count)
    (hfin : ((((BtreeNode.insert_id_nontop fuel n st id value).2.2).alloc fuel
      .btreePage).2.pages n1.page_count).isSome = true) :
    (BtreeNode.insert_id fuel n st id value).1 = .ok () ∧
    (BtreeNode.insert_id fuel n st id value).2.1
      = { page_count := n.page_count, ids := [hv, sep], ptrs := [pg.count, rp],
          node_type := PAGE_TYPEID_BTREE_INTERNAL } ∧
    ((BtreeNode.insert_id fuel n st id value).2.2.pages pg.count).map Page.data
      = some (BtreeNode.dump
          { page_count := pg.count, ids := n1.ids, ptrs := n1.ptrs,
            node_type := n1.node_type }) := by
  have hpc : n1.page_count = n.page_count := by
    rw [← hn1]
    exact BtreeNode.insert_id_nontop_page_count fuel n st id value
  simp only [BtreeNode.insert_id]
  rcases hscr : BtreeNode.insert_id_nontop fuel n st id value with ⟨r, nn, stn⟩
  rw [hscr] at hnt hn1 halloc hfin
  dsimp only at hnt hn1 halloc hfin
  subst hnt
  subst hn1
  dsimp only
  rcases ha2 : stn.alloc fuel .btreePage with ⟨ra, st2⟩
  rw [ha2] at halloc hfin
  dsimp only at halloc hfin
  subst halloc
  dsimp only
  rw [hhead]
  dsimp only
  have hmem2 : (((st2.updatePage pg.count (fun p => p.modifyData (BtreeNode.dump
      { page_count := pg.count, ids := nn.ids, ptrs := nn.ptrs,
        node_type := nn.node_type }))).pages nn.page_count)).isSome = true := by
    rw [PageManage.updatePage_isSome]
    exact hfin
  rw [PageManage.modifyDrop_hit _ _ _ hmem2]
  dsimp only
  refine ⟨rfl, ?_, ?_⟩
  · rw [hpc]
  · simp only [PageManage.updatePage]
    rw [if_neg hne]
    simp only [if_true]
    rw [PageManage.alloc_ok_pages stn fuel .btreePage pg st2 ha2]
    rfl

set_option maxRecDepth 800000 in
/-- Claim C7 witness: inserting key 254 into the full root leaf with
keys 0..253 splits it; the root page 1 becomes an internal node with
entries (0, 3) and (128, 2), page 3 being the new left child holding
keys 0..127. -/
theorem C7_root_split_rebuild_witness :
    (BtreeNode.insert_id 3 leaf254 stRoot 254 99).1 = .ok () ∧
    (BtreeNode.insert_id 3 leaf254 stRoot 254 99).2.1
      = { page_count := leaf254.page_count, ids := [0, 128], ptrs := [3, 2],
          node_type := PAGE_TYPEID_BTREE_INTERNAL } ∧
    ((BtreeNode.insert_id 3 leaf254 stRoot 254 99).2.2.pages 3).map Page.data
      = some (BtreeNode.dump
          { page_count := 3, ids := leftW.ids, ptrs := leftW.ptrs,
            node_type := leftW.node_type }) :=
  C7_root_split_rebuild 3 leaf254 stRoot 254 99 128 2 leftW
    { page_type := .btreePage, count := 3, syncd := false, data := zeroData } 0
    (by decide) (by decide) (by rfl) (by decide) (by decide) (by decide)

/-- A successful get leaves the returned page cached under its count. -/
theorem PageManage.get_ok_pages (st : PageManage) (c : Nat) (p : Page) (st1 : PageManage)
    (h : st.get c = (.ok p, st1)) : st1.pages c = some p := by
  unfold PageManage.get at h
  rcases hp : st.pages c with _ | q
  · rw [hp] at h
    dsimp only at h
    rcases hlc : st.limit_cache with ⟨rl, stl⟩
    rw [hlc] at h
    cases rl with
    | ok u =>
      dsimp only at h
      rcases hld : Page.loadDev stl.device c with _ | _ | _ | q2
      · rw [hld] at h
        dsimp only at h
        rw [Prod.mk.injEq] at h
        obtain ⟨h1, h2⟩ := h
        rw [ROut.ok.injEq] at h1
        subst h1
        rw [← h2]
        simp
      · rw [hld] at h
        dsimp only at h
        simp at h
      · rw [hld] at h
        dsimp only at h
        simp at h
      · rw [hld] at h
        dsimp only at h
        simp at h
    | err => dsimp only at h; simp at h
    | crash => dsimp only at h; simp at h
    | nofuel => dsimp only at h; simp at h
  · rw [hp] at h
    dsimp only at h
    rw [Prod.mk.injEq] at h
    obtain ⟨h1, h2⟩ := h
    rw [ROut.ok.injEq] at h1
    subst h1
    rw [← h2, hp]

/-- Claim C8 (amended): the bitmap-slot test in find_page_by_type
compares (c % 32768) + 1 with 0 and thus never skips anything, so the
returned count can be a bitmap slot (the counterexample returns and
stamps count 0 on a fresh store).  What does hold: whenever
find_page_by_type returns a count, the page cached under that count in
the resulting state has its first byte equal to the requested tag —
either an existing page that already carried the tag, or the page at
the scan position stamped after allocating the lowest free count. -/
theorem C8_find_page_by_type_tags (tag : Nat) (htag : tag < 256) :
    ∀ fuel st start c,
      (PageManage.find_page_by_type st start tag fuel).1 = .ok c →
      (((PageManage.find_page_by_type st start tag fuel).2.pages c).map
        (fun p => p.data 0)) = some tag := by
  intro fuel
  induction fuel with
  | zero =>
    intro st start c h
    simp [PageManage.find_page_by_type, PageManage.find_page_by_type_from] at h
  | succ fuel ih =>
    intro st start c h
    simp only [PageManage.find_page_by_type, PageManage.find_page_by_type_from] at h ⊢
    rw [if_neg (by omega)] at h ⊢
    rcases hg : st.get start with ⟨rg, st1⟩
    rw [hg] at h
    cases rg with
    | ok pg =>
      dsimp only at h ⊢
      by_cases htg : pg.data 0 = tag
      · rw [if_pos htg] at h ⊢
        dsimp only at h ⊢
        rw [ROut.ok.injEq] at h
        subst h
        rw [PageManage.get_ok_pages st start pg st1 hg]
        simp [htg]
      · rw [if_neg htg] at h ⊢
        exact ih st1 (start + 1) c h
    | err =>
      dsimp only at h ⊢
      rcases ha : st1.alloc (fuel + 1) .general with ⟨ra, st2⟩
      rw [ha] at h
      cases ra with
      | ok pg2 =>
        dsimp only at h ⊢
        rcases hg2 : st2.get start with ⟨rg2, st3⟩
        rw [hg2] at h
        cases rg2 with
        | ok pg3 =>
          dsimp only at h ⊢
          rw [ROut.ok.injEq] at h
          subst h
          simp only [PageManage.updatePage]
          rw [PageManage.get_ok_pages st2 start pg3 st3 hg2]
          simp [Nat.mod_eq_of_lt htag]
        | err => dsimp only at h; simp at h
        | crash => dsimp only at h; simp at h
        | nofuel => dsimp only at h; simp at h
      | err => dsimp only at h; simp at h
      | crash => dsimp only at h; simp at h
      | nofuel => dsimp only at h; simp at h
    | crash => dsimp only at h; simp at h
    | nofuel => dsimp only at h; simp at h

/-- Claim C8 witness: on a fresh store, find_page_by_type(0, 3)
returns a count (namely 0) whose cached page carries first byte 3. -/
theorem C8_find_page_by_type_tags_witness :
    (((PageManage.find_page_by_type (emptySt 1024) 0 PAGE_TYPEID_CONTENT 5).2.pages 0).map
      (fun p => p.data 0)) = some PAGE_TYPEID_CONTENT :=
  C8_find_page_by_type_tags PAGE_TYPEID_CONTENT (by decide) 5 (emptySt 1024) 0 0 (by decide)

/-- A failure retag is never a success. -/
theorem ROut.isOk_fail {α β : Type} (f : ROut α) : (ROut.fail (β := β) f).isOk = false := by
  cases f <;> rfl

/-- A content page never accepts the oversize entry: its 2-byte header
plus the 4095-byte packed entry exceed PAGE_SIZE. -/
theorem ContentPage.push_oversize (cp : ContentPage) : cp.push oversizeEntry = none := by
  have h1 : oversizeEntry.total_size = 4095 := by
    unfold oversizeEntry ContentEntry.total_size
    dsimp only
    rw [List.length_replicate]
    simp only [PAGE_SIZE]
  unfold ContentPage.push
  rw [if_neg]
  intro hcontra
  have h2 : 2 ≤ cp.total_size := by
    simp only [ContentPage.total_size]
    omega
  rw [h1] at hcontra
  simp only [PAGE_SIZE] at hcontra
  omega

set_option maxRecDepth 100000 in
/-- Claim C1 (code bug): Table::insert never builds an overflow chain.
For a value of PAGE_SIZE - 3 bytes the inner page-hunting loop retries
ContentPage::push of the same oversize entry against the same
in-memory content page snapshot, which fails at every page, so the
loop can never complete no matter how long it runs (first conjunct:
for every fuel bound and every starting state the loop never returns
success); consequently Table::insert of the single-value oversize
record never returns a rowid (second conjunct), where the claim says
the value is materialized through an overflow chain and the inserted
record can be queried back. -/
theorem C1_insert_oversize_never_completes :
    (∀ fuel root count numValues lastLoc st pc cp,
      (Table.insertValLoop root oversizeEntry count numValues lastLoc st pc cp fuel).1.isOk
        = false) ∧
    (∀ fuel tbl st, (Table.insert fuel tbl st oversizeRecord).1.isOk = false) := by
  have hA : ∀ fuel (root : BtreeNode) count numValues lastLoc st pc cp,
      (Table.insertValLoop root oversizeEntry count numValues lastLoc st pc cp fuel).1.isOk
        = false := by
    intro fuel
    induction fuel with
    | zero => intro root count numValues lastLoc st pc cp; rfl
    | succ fuel ih =>
      intro root count numValues lastLoc st pc cp
      simp only [Table.insertValLoop, ContentPage.push_oversize]
      rcases hf : st.find_page_by_type (pc + 1) PAGE_TYPEID_CONTENT (fuel + 1) with ⟨r, st1⟩
      cases r with
      | ok pc1 =>
        dsimp only
        exact ih root count numValues lastLoc st1 pc1 cp
      | err => rfl
      | crash => rfl
      | nofuel => rfl
  refine ⟨hA, ?_⟩
  intro fuel tbl st
  simp only [Table.insert]
  rcases hp1 : Table.probeId tbl.root_node st 0 fuel with ⟨r1, st1⟩
  cases r1 with
  | ok rowid =>
    dsimp only
    rcases hp2 : st1.find_page_by_type 0 PAGE_TYPEID_CONTENT fuel with ⟨r2, st2⟩
    cases r2 with
    | ok pc =>
      dsimp only
      simp only [oversizeRecord, Table.insertVals, List.length_cons, List.length_nil,
        Nat.zero_add, Nat.sub_self, lt_self_iff_false, if_false]
      rcases hg : st2.get pc with ⟨rg, st3⟩
      cases rg with
      | ok pg =>
        dsimp only
        rcases hloop : Table.insertValLoop tbl.root_node
            { data := List.replicate (PAGE_SIZE - 3) 0, overflow_page := none } 0 1 none st3 pc
            (ContentPage.load pg.data) fuel with ⟨rl, stl⟩
        have hfalse := hA fuel tbl.root_node 0 1 none st3 pc (ContentPage.load pg.data)
        simp only [oversizeEntry] at hfalse
        rw [hloop] at hfalse
        cases rl with
        | ok x => simp [ROut.isOk] at hfalse
        | err => rfl
        | crash => rfl
        | nofuel => rfl
      | err => rfl
      | crash => rfl
      | nofuel => rfl
    | err => rfl
    | crash => rfl
    | nofuel => rfl
  | err => rfl
  | crash => rfl
  | nofuel => rfl

/-- A full byte of the bitmap buffer. -/
theorem bmData_full (n i : Nat) (h : (i + 1) * 8 ≤ n) : bmData n i = 255 := by
  unfold bmData
  rw [if_pos h]

/-- The byte at the used/free boundary of the bitmap buffer. -/
theorem bmData_at_boundary (n : Nat) :
    bmData n (n / 8) = if n % 8 = 0 then 0 else 256 - 2 ^ (8 - n % 8) := by
  unfold bmData
  rcases Nat.eq_zero_or_pos (n % 8) with h | h
  · rw [if_neg (by omega), if_neg (by omega), if_pos h]
  · rw [if_neg (by omega), if_pos (by omega), if_neg (by omega)]
    congr 2
    omega

/-- The boundary byte after one more bit is set. -/
theorem bmData_succ_boundary (n : Nat) :
    bmData (n + 1) (n / 8) = if n % 8 = 7 then 255 else 256 - 2 ^ (8 - (n % 8 + 1)) := by
  unfold bmData
  rcases eq_or_ne (n % 8) 7 with h | h
  · rw [if_pos (by omega), if_pos h]
  · rw [if_neg (by omega), if_pos (by omega), if_neg h]
    congr 2
    omega

/-- Away from the boundary byte, setting bit n changes nothing. -/
theorem bmData_stable (n i : Nat) (h : i ≠ n / 8) : bmData (n + 1) i = bmData n i := by
  unfold bmData
  split_ifs <;> first | rfl | (exfalso; omega)

/-- get_used over the closed-form bitmap buffer tests position < n. -/
theorem get_used_bm (b : BitmapPage) (n pos : Nat) (hd : b.page.data = bmData n) :
    b.get_used pos = decide (pos < n) := by
  unfold BitmapPage.get_used
  rw [hd]
  dsimp only
  rcases le_or_lt ((pos / 8 + 1) * 8) n with hA | hA
  · rw [bmData_full n (pos / 8) hA]
    rw [decide_eq_true (show pos < n by omega)]
    have hk : pos % 8 < 8 := by omega
    generalize pos % 8 = k at hk ⊢
    interval_cases k <;> decide
  · rcases le_or_lt n (pos / 8 * 8) with hC | hB
    · have hv : bmData n (pos / 8) = 0 := by
        unfold bmData
        rw [if_neg (by omega), if_neg (by omega)]
      rw [hv]
      rw [decide_eq_false (show ¬ pos < n by omega)]
      simp
    · have hv : bmData n (pos / 8) = 256 - 2 ^ (8 - (n - pos / 8 * 8)) := by
        unfold bmData
        rw [if_neg (by omega), if_pos (by omega)]
      rw [hv]
      have hr : decide (pos < n) = decide (pos % 8 < n - pos / 8 * 8) := by
        simp only [decide_eq_decide]
        omega
      rw [hr]
      have hm : 1 ≤ n - pos / 8 * 8 ∧ n - pos / 8 * 8 ≤ 7 := by omega
      have hk : pos % 8 < 8 := by omega
      obtain ⟨hm1, hm2⟩ := hm
      generalize n - pos / 8 * 8 = m at hm1 hm2 ⊢
      generalize pos % 8 = k at hk ⊢
      interval_cases m <;> interval_cases k <;> decide

/-- The boundary byte is never 255. -/
theorem bmData_boundary_ne (n : Nat) : bmData n (n / 8) ≠ 255 := by
  rw [bmData_at_boundary]
  rcases eq_or_ne (n % 8) 0 with h | h
  · rw [if_pos h]
    omega
  · rw [if_neg h]
    have h1 : 2 ≤ 2 ^ (8 - n % 8) := by
      have : 1 ≤ 8 - n % 8 := by omega
      calc 2 = 2 ^ 1 := rfl
        _ ≤ 2 ^ (8 - n % 8) := Nat.pow_le_pow_right (by omega) this
    omega

/-- Scanning the boundary byte finds exactly bit n. -/
theorem findUnusedInByte_bm (b : BitmapPage) (n : Nat) (hd : b.page.data = bmData n) :
    b.findUnusedInByte (n / 8) = some n := by
  have hg : ∀ j, b.get_used (n / 8 * 8 + j) = decide (j < n % 8) := by
    intro j
    rw [get_used_bm b n _ hd]
    simp only [decide_eq_decide]
    omega
  unfold BitmapPage.findUnusedInByte
  rw [show List.range 8 = [0, 1, 2, 3, 4, 5, 6, 7] from rfl]
  simp only [List.findSome?]
  simp only [hg]
  have h8 : n % 8 = 0 ∨ n % 8 = 1 ∨ n % 8 = 2 ∨ n % 8 = 3 ∨ n % 8 = 4 ∨ n % 8 = 5 ∨
      n % 8 = 6 ∨ n % 8 = 7 := by omega
  rcases h8 with h | h | h | h | h | h | h | h
  all_goals simp only [h]
  all_goals norm_num
  all_goals omega

/-- The bitmap scan started at or before the boundary byte finds bit n. -/
theorem findUnusedFrom_bm (b : BitmapPage) (n : Nat) (hd : b.page.data = bmData n) :
    ∀ rem i, i ≤ n / 8 → n / 8 < i + rem → b.findUnusedFrom i rem = some n := by
  intro rem
  induction rem with
  | zero => intro i h1 h2; omega
  | succ rem ih =>
    intro i h1 h2
    unfold BitmapPage.findUnusedFrom
    rcases eq_or_lt_of_le h1 with heq | hlt
    · rw [hd, heq, if_pos (bmData_boundary_ne n), findUnusedInByte_bm b n hd]
    · rw [hd, bmData_full n i (by omega), if_neg (by simp)]
      exact ih (i + 1) (by omega) (by omega)

/-- BitmapPage::find_unused over the closed-form buffer returns n. -/
theorem find_unused_bm (b : BitmapPage) (n : Nat) (hd : b.page.data = bmData n)
    (hn : n < BITMAP_MANAGED_SIZE) :
    b.find_unused = some n := by
  unfold BitmapPage.find_unused
  apply findUnusedFrom_bm b n hd
  · omega
  · simp only [BITMAP_MANAGED_SIZE, PAGE_SIZE] at hn ⊢
    omega

/-- The already-set bit 0 absorbs into the closed-form buffer. -/
theorem bmData_or_top (n : Nat) (hn : 1 ≤ n) : bmData n 0 ||| 1 <<< 7 = bmData n 0 := by
  have h0 : bmData n 0 = if 8 ≤ n then 255 else 256 - 2 ^ (8 - n) := by
    unfold bmData
    rcases le_or_lt 8 n with h | h
    · rw [if_pos (by omega), if_pos h]
    · rw [if_neg (by omega), if_pos (by omega), if_neg (by omega)]
      congr 2
  rw [h0]
  rcases le_or_lt 8 n with h | h
  · rw [if_pos h]
    decide
  · rw [if_neg (by omega)]
    interval_cases n <;> decide

/-- set_used 0 on the closed-form buffer changes nothing. -/
theorem set_used_zero_bm (b : BitmapPage) (n : Nat) (hd : b.page.data = bmData n)
    (hn : 1 ≤ n) : (b.set_used 0).page.data = bmData n := by
  funext i
  unfold BitmapPage.set_used
  dsimp only
  rw [hd]
  norm_num
  intro h
  rw [h]
  exact bmData_or_top n hn

/-- set_used n on the closed-form buffer sets bit n. -/
theorem set_used_next_bm (b : BitmapPage) (n : Nat) (hd : b.page.data = bmData n) :
    (b.set_used n).page.data = bmData (n + 1) := by
  funext i
  unfold BitmapPage.set_used
  dsimp only
  rw [hd]
  rcases eq_or_ne i (n / 8) with h | h
  · rw [if_pos h, h, bmData_at_boundary, bmData_succ_boundary]
    have h8 : n % 8 = 0 ∨ n % 8 = 1 ∨ n % 8 = 2 ∨ n % 8 = 3 ∨ n % 8 = 4 ∨ n % 8 = 5 ∨
        n % 8 = 6 ∨ n % 8 = 7 := by omega
    rcases h8 with hm | hm | hm | hm | hm | hm | hm | hm
    all_goals simp only [hm]
    all_goals decide
  · rw [if_neg h]
    exact (bmData_stable n i h).symm

/-- Setting bit 0 of a fresh zero bitmap page gives the closed form
with one bit. -/
theorem zero_set_bm :
    (BitmapPage.set_used { page := Page.new 0 .bitmapPage } 0).page.data = bmData 1 := by
  funext i
  unfold BitmapPage.set_used Page.new zeroData
  dsimp only
  norm_num
  rcases eq_or_ne i 0 with h | h
  · rw [if_pos h, h]
    decide
  · rw [if_neg h]
    unfold bmData
    rw [if_neg (by omega), if_neg (by omega)]

/-- Component-wise equality of manager states. -/
theorem PageManage.eqOfParts (a b : PageManage) (h1 : a.pages = b.pages)
    (h2 : a.cache_size = b.cache_size) (h3 : a.cache_pages = b.cache_pages)
    (h4 : a.device = b.device) : a = b := by
  cases a
  cases b
  cases h1
  cases h2
  cases h3
  cases h4
  rfl

/-- A get of a cached page is a pure hit. -/
theorem PageManage.get_hit (st : PageManage) (c : Nat) (p : Page) (h : st.pages c = some p) :
    st.get c = (.ok p, st) := by
  unfold PageManage.get
  rw [h]

/-- PageManage::alloc on a state whose bitmap page is the closed form
with n bits set and whose cache has room: it returns a fresh zero page
at the lowest free count n, marks bit n and caches the new page. -/
theorem PageManage.alloc_bm (st : PageManage) (t : PageType) (fuel n : Nat)
    (h0 : st.pages 0 = some (bmPageN n)) (hn1 : 1 ≤ n) (hn2 : n < BITMAP_MANAGED_SIZE)
    (hcache : st.cache_pages.length < st.cache_size) (hfuel : 1 ≤ fuel) :
    st.alloc fuel t
      = (.ok (Page.new n t),
         { pages := fun k => if k = n then some (Page.new n t)
             else if k = 0 then some (bmPageN (n + 1)) else st.pages k,
           cache_size := st.cache_size,
           cache_pages := st.cache_pages ++ [n],
           device := st.device }) := by
  have hlc : st.limit_cache = (.ok (), st) := by
    unfold PageManage.limit_cache
    rw [if_neg (by omega)]
  obtain ⟨f, rfl⟩ : ∃ f, fuel = f + 1 := ⟨fuel - 1, by omega⟩
  unfold PageManage.alloc
  rw [hlc]
  dsimp only
  unfold PageManage.find_unused_page PageManage.find_unused_page_from
  rw [PageManage.get_hit st 0 _ h0]
  dsimp only
  have hbp : (BitmapPage.set_used { page := bmPageN n } 0).page.data = bmData n :=
    set_used_zero_bm _ n rfl hn1
  rw [find_unused_bm _ n hbp hn2]
  dsimp only
  have hbp1 : ((BitmapPage.set_used { page := bmPageN n } 0).set_used n).page.data
      = bmData (n + 1) := set_used_next_bm _ n hbp
  rw [PageManage.modify_hit st 0 _ (by rw [h0]; rfl)]
  dsimp only
  simp only [Nat.add_zero]
  rw [Prod.mk.injEq]
  constructor
  · rfl
  · apply PageManage.eqOfParts
    · funext k
      dsimp only [PageManage.updatePage]
      rcases eq_or_ne k n with hk | hk
    -- k = n
      · rw [hk, if_pos rfl, if_pos rfl]
      · rw [if_neg hk, if_neg hk]
        rcases eq_or_ne k 0 with hk0 | hk0
        · rw [hk0, if_pos rfl, if_pos rfl, h0]
          rw [Option.map, hbp1]
          rfl
        · rw [if_neg hk0, if_neg hk0]
    · rfl
    · rfl
    · rfl

/-- The first alloc on a fresh store materializes bitmap page 0 (bits
0 and 1 set) and returns the fresh page 1. -/
theorem PageManage.alloc_fresh (C : Nat) (t : PageType) (fuel : Nat) (hC : 1 ≤ C)
    (hfuel : 1 ≤ fuel) :
    (emptySt C).alloc fuel t
      = (.ok (Page.new 1 t),
         { pages := fun k => if k = 1 then some (Page.new 1 t)
             else if k = 0 then some (bmPageN 2) else none,
           cache_size := C, cache_pages := [0, 1], device := fun _ => none }) := by
  have hlc : (emptySt C).limit_cache = (.ok (), emptySt C) := by
    unfold PageManage.limit_cache emptySt
    rw [if_neg (by simp; omega)]
  obtain ⟨f, rfl⟩ : ∃ f, fuel = f + 1 := ⟨fuel - 1, by omega⟩
  unfold PageManage.alloc
  rw [hlc]
  dsimp only
  unfold PageManage.find_unused_page PageManage.find_unused_page_from
  have hmiss : (emptySt C).get 0 = (.err, emptySt C) := by
    unfold PageManage.get
    rw [show (emptySt C).pages 0 = none from rfl]
    rw [hlc]
    rfl
  rw [hmiss]
  dsimp only
  have hawc : (emptySt C).alloc_with_count 0 .bitmapPage
      = (.ok (Page.new 0 .bitmapPage),
         { pages := fun k => if k = 0 then some (Page.new 0 .bitmapPage) else none,
           cache_size := C, cache_pages := [0], device := fun _ => none }) := by
    unfold PageManage.alloc_with_count
    rw [hlc]
    dsimp only
    rw [Prod.mk.injEq]
    constructor
    · rfl
    · apply PageManage.eqOfParts
      · funext k
        dsimp only [emptySt]
      · rfl
      · rfl
      · rfl
  rw [hawc]
  dsimp only
  have hbp : (BitmapPage.set_used { page := Page.new 0 .bitmapPage } 0).page.data = bmData 1 :=
    zero_set_bm
  rw [find_unused_bm _ 1 hbp (by simp [BITMAP_MANAGED_SIZE, PAGE_SIZE])]
  dsimp only
  have hbp1 : ((BitmapPage.set_used { page := Page.new 0 .bitmapPage } 0).set_used 1).page.data
      = bmData 2 := set_used_next_bm _ 1 hbp
  rw [PageManage.modify_hit _ 0 _ (by rfl)]
  dsimp only
  rw [Prod.mk.injEq]
  constructor
  · rfl
  · apply PageManage.eqOfParts
    · funext k
      dsimp only [PageManage.updatePage]
      rcases eq_or_ne k 1 with hk | hk
      · rw [hk]
        rw [if_pos rfl, if_pos rfl]
      · rw [if_neg hk, if_neg hk]
        rcases eq_or_ne k 0 with hk0 | hk0
        · rw [hk0, if_pos rfl, if_pos rfl, if_pos rfl]
          rw [Option.map, hbp1]
          rfl
        · rw [if_neg hk0, if_neg hk0, if_neg hk0]
    · rfl
    · rfl
    · rfl

/-- A remainder that fits one tail page is a single chunk. -/
theorem overflowChunks_small (d : List Nat) (h : d.length ≤ OVERFLOWPAGE_AVAILABLE_SIZE) :
    overflowChunks d = [d] := by
  rw [overflowChunks]
  rw [dif_neg (by omega)]

/-- A remainder too big for one tail page starts with one full chunk. -/
theorem overflowChunks_big (d : List Nat) (h : OVERFLOWPAGE_AVAILABLE_SIZE < d.length) :
    overflowChunks d = d.take OVERFLOWED_OVERFLOWPAGE_AVAILABLE_SIZE
      :: overflowChunks (d.drop OVERFLOWED_OVERFLOWPAGE_AVAILABLE_SIZE) := by
  conv_lhs => rw [overflowChunks]
  rw [dif_pos h]

/-- There is always at least one chunk. -/
theorem overflowChunks_ne_nil (d : List Nat) : overflowChunks d ≠ [] := by
  rcases le_or_lt d.length OVERFLOWPAGE_AVAILABLE_SIZE with h | h
  · rw [overflowChunks_small d h]
    simp
  · rw [overflowChunks_big d h]
    simp

/-- The chunks reassemble to the remainder. -/
theorem overflowChunks_flatten (d : List Nat) : (overflowChunks d).flatten = d := by
  have H : ∀ n (d : List Nat), d.length ≤ n → (overflowChunks d).flatten = d := by
    intro n
    induction n with
    | zero =>
      intro d hd
      rw [overflowChunks_small d (by omega)]
      simp
    | succ n ih =>
      intro d hd
      rcases le_or_lt d.length OVERFLOWPAGE_AVAILABLE_SIZE with h | h
      · rw [overflowChunks_small d h]
        simp
      · rw [overflowChunks_big d h]
        rw [List.flatten_cons]
        rw [ih (d.drop OVERFLOWED_OVERFLOWPAGE_AVAILABLE_SIZE) (by
          simp only [List.length_drop, OVERFLOWED_OVERFLOWPAGE_AVAILABLE_SIZE,
            OVERFLOWPAGE_AVAILABLE_SIZE, PAGE_SIZE] at *
          omega)]
        exact List.take_append_drop _ d
  exact H d.length d le_rfl

/-- Every chunk but the last holds exactly PAGE_SIZE - 11 bytes. -/
theorem overflowChunks_nonlast_len (d : List Nat) :
    ∀ x ∈ (overflowChunks d).dropLast, x.length = OVERFLOWED_OVERFLOWPAGE_AVAILABLE_SIZE := by
  have H : ∀ n (d : List Nat), d.length ≤ n →
      ∀ x ∈ (overflowChunks d).dropLast,
        x.length = OVERFLOWED_OVERFLOWPAGE_AVAILABLE_SIZE := by
    intro n
    induction n with
    | zero =>
      intro d hd
      rw [overflowChunks_small d (by omega)]
      simp
    | succ n ih =>
      intro d hd
      rcases le_or_lt d.length OVERFLOWPAGE_AVAILABLE_SIZE with h | h
      · rw [overflowChunks_small d h]
        simp
      · rw [overflowChunks_big d h]
        rw [List.dropLast_cons_of_ne_nil (overflowChunks_ne_nil _)]
        intro x hx
        rcases List.mem_cons.mp hx with hx1 | hx2
        · rw [hx1, List.length_take]
          simp only [OVERFLOWED_OVERFLOWPAGE_AVAILABLE_SIZE, OVERFLOWPAGE_AVAILABLE_SIZE,
            PAGE_SIZE] at *
          omega
        · exact ih (d.drop OVERFLOWED_OVERFLOWPAGE_AVAILABLE_SIZE) (by
            simp only [List.length_drop, OVERFLOWED_OVERFLOWPAGE_AVAILABLE_SIZE,
              OVERFLOWPAGE_AVAILABLE_SIZE, PAGE_SIZE] at *
            omega) x hx2
  exact H d.length d le_rfl

/-- Every chunk fits a tail page (PAGE_SIZE - 3 bytes). -/
theorem overflowChunks_len_le (d : List Nat) :
    ∀ x ∈ overflowChunks d, x.length ≤ OVERFLOWPAGE_AVAILABLE_SIZE := by
  have H : ∀ n (d : List Nat), d.length ≤ n →
      ∀ x ∈ overflowChunks d, x.length ≤ OVERFLOWPAGE_AVAILABLE_SIZE := by
    intro n
    induction n with
    | zero =>
      intro d hd
      rw [overflowChunks_small d (by omega)]
      intro x hx
      rcases List.mem_singleton.mp hx with rfl
      omega
    | succ n ih =>
      intro d hd
      rcases le_or_lt d.length OVERFLOWPAGE_AVAILABLE_SIZE with h | h
      · rw [overflowChunks_small d h]
        intro x hx
        rcases List.mem_singleton.mp hx with rfl
        omega
      · rw [overflowChunks_big d h]
        intro x hx
        rcases List.mem_cons.mp hx with hx1 | hx2
        · rw [hx1, List.length_take]
          simp only [OVERFLOWED_OVERFLOWPAGE_AVAILABLE_SIZE, OVERFLOWPAGE_AVAILABLE_SIZE,
            PAGE_SIZE] at *
          omega
        · exact ih (d.drop OVERFLOWED_OVERFLOWPAGE_AVAILABLE_SIZE) (by
            simp only [List.length_drop, OVERFLOWED_OVERFLOWPAGE_AVAILABLE_SIZE,
              OVERFLOWPAGE_AVAILABLE_SIZE, PAGE_SIZE] at *
            omega) x hx2
  exact H d.length d le_rfl

/-- At most one chunk per PAGE_SIZE - 11 bytes, plus the tail. -/
theorem overflowChunks_length_le (d : List Nat) :
    (overflowChunks d).length ≤ d.length / OVERFLOWED_OVERFLOWPAGE_AVAILABLE_SIZE + 1 := by
  have H : ∀ n (d : List Nat), d.length ≤ n →
      (overflowChunks d).length ≤ d.length / OVERFLOWED_OVERFLOWPAGE_AVAILABLE_SIZE + 1 := by
    intro n
    induction n with
    | zero =>
      intro d hd
      rw [overflowChunks_small d (by omega)]
      simp
    | succ n ih =>
      intro d hd
      rcases le_or_lt d.length OVERFLOWPAGE_AVAILABLE_SIZE with h | h
      · rw [overflowChunks_small d h]
        simp
      · rw [overflowChunks_big d h]
        rw [List.length_cons]
        have hrec := ih (d.drop OVERFLOWED_OVERFLOWPAGE_AVAILABLE_SIZE) (by
          simp only [List.length_drop, OVERFLOWED_OVERFLOWPAGE_AVAILABLE_SIZE,
            OVERFLOWPAGE_AVAILABLE_SIZE, PAGE_SIZE] at *
          omega)
        rw [List.length_drop] at hrec
        simp only [OVERFLOWED_OVERFLOWPAGE_AVAILABLE_SIZE, OVERFLOWPAGE_AVAILABLE_SIZE,
          PAGE_SIZE] at *
        omega
  exact H d.length d le_rfl

/-- The bitmap page of a loop-entry state. -/
theorem loopSt_pages_bitmap (C : Nat) (done : List (List Nat)) :
    (loopSt C done).pages 0 = some (bmPageN (done.length + 3)) := by
  unfold loopSt
  dsimp only
  rw [if_pos rfl]

/-- The pending (still zero) link page of a loop-entry state. -/
theorem loopSt_pages_pending (C : Nat) (done : List (List Nat)) :
    (loopSt C done).pages (done.length + 1)
      = some (Page.new (done.length + 1) .overflowPage) := by
  unfold loopSt
  dsimp only
  rw [if_neg (by omega), if_neg (by omega), if_pos (by omega)]

/-- The current (still zero) link page of a loop-entry state. -/
theorem loopSt_pages_cur (C : Nat) (done : List (List Nat)) :
    (loopSt C done).pages (done.length + 2)
      = some (Page.new (done.length + 2) .overflowPage) := by
  unfold loopSt
  dsimp only
  rw [if_neg (by omega), if_neg (by omega), if_pos (by omega)]

/-- One unfolding of the from_bytes chain loop. -/
theorem fromBytesLoop_succ (st : PageManage) (last_count : Option Nat)
    (last_page : Option OverflowPage) (overflow_page_count : Nat) (d : List Nat) (fuel : Nat) :
    ContentEntry.fromBytesLoop st last_count last_page overflow_page_count d (fuel + 1)
      = (let last_page1 := last_page.map (fun lp => { lp with next := some overflow_page_count })
         let overflow_page := OverflowPage.put_data { data := [], next := none } d
         let step1 : ROut Unit × PageManage :=
           match last_count, last_page1 with
           | some count, some page => st.modify count page.dump
           | _, _ => (.ok (), st)
         match step1 with
         | (.ok _, st1) =>
           let d1 := d.drop overflow_page.data.length
           if d1.isEmpty then
             match st1.modify overflow_page_count overflow_page.dump with
             | (.ok _, st2) => (.ok (), st2)
             | (f, st2) => (f.fail, st2)
           else
             match st1.alloc (fuel + 1) .overflowPage with
             | (.ok pg, st2) =>
               ContentEntry.fromBytesLoop st2 (some overflow_page_count) (some overflow_page)
                 pg.count d1 fuel
             | (f, st2) => (f.fail, st2)
         | (f, st1) => (f.fail, st1)) := rfl

theorem fromBytesLoop_chain (C : Nat) :
    ∀ (fuel : Nat) (d : List Nat) (done : List (List Nat)) (lp : List Nat),
      d ≠ [] →
      done.length + (overflowChunks d).length + 3 ≤ C →
      done.length + (overflowChunks d).length + 5 ≤ BITMAP_MANAGED_SIZE →
      (overflowChunks d).length + 1 ≤ fuel →
      ContentEntry.fromBytesLoop (loopSt C done) (some (done.length + 1))
          (some { data := lp, next := none }) (done.length + 2) d fuel
        = (.ok (), chainFinalSt C (done ++ lp :: overflowChunks d)) := by
  intro fuel
  induction fuel with
  | zero =>
    intro d done lp hne hcap hroom hfuel
    have h1 : 0 < (overflowChunks d).length := List.length_pos.mpr (overflowChunks_ne_nil d)
    omega
  | succ fuel ih =>
    intro d done lp hne hcap hroom hfuel
    rw [fromBytesLoop_succ]
    dsimp only [Option.map]
    rw [PageManage.modify_hit _ _ _ (by rw [loopSt_pages_pending]; rfl)]
    dsimp only
    rcases le_or_lt d.length OVERFLOWPAGE_AVAILABLE_SIZE with hsm | hbig
    · -- tail chunk: write the current page and stop
      have hput : OverflowPage.put_data { data := [], next := none } d
          = { data := d, next := none } := by
        unfold OverflowPage.put_data
        rw [if_neg (by omega)]
      rw [hput]
      dsimp only
      rw [List.drop_length]
      rw [if_pos (show ([] : List Nat).isEmpty = true from rfl)]
      rw [PageManage.modify_hit _ _ _ (by
        dsimp only [PageManage.updatePage]
        rw [if_neg (by omega), loopSt_pages_cur]
        rfl)]
      dsimp only
      rw [overflowChunks_small d hsm]
      rw [Prod.mk.injEq]
      refine ⟨rfl, ?_⟩
      apply PageManage.eqOfParts
      · funext k
        dsimp only [PageManage.updatePage, loopSt, chainFinalSt]
        have hlen2 : (done ++ [lp, d]).length = done.length + 2 := by simp
        rw [hlen2]
        rcases eq_or_ne k (done.length + 2) with hk2 | hk2
        · subst hk2
          rw [if_pos (by omega : done.length + 2 = done.length + 2),
            if_neg (by omega : ¬ done.length + 2 = done.length + 1),
            if_neg (by omega : ¬ done.length + 2 = 0),
            if_neg (by omega : ¬ done.length + 2 ≤ done.length),
            if_pos (by omega : done.length + 2 ≤ done.length + 2),
            if_neg (by omega : ¬ done.length + 2 = 0),
            if_neg (by omega : ¬ done.length + 2 < done.length + 2),
            if_pos (by omega : done.length + 2 = done.length + 2),
            List.getD_append_right _ _ _ _ (by omega),
            show done.length + 2 - 1 - done.length = 1 from by omega]
          rfl
        rcases eq_or_ne k (done.length + 1) with hk1 | hk1
        · subst hk1
          rw [if_neg hk2,
            if_pos (by omega : done.length + 1 = done.length + 1),
            if_neg (by omega : ¬ done.length + 1 = 0),
            if_neg (by omega : ¬ done.length + 1 ≤ done.length),
            if_pos (by omega : done.length + 1 ≤ done.length + 2),
            if_neg (by omega : ¬ done.length + 1 = 0),
            if_pos (by omega : done.length + 1 < done.length + 2),
            List.getD_append_right _ _ _ _ (by omega),
            show done.length + 1 - 1 - done.length = 0 from by omega]
          rfl
        rcases eq_or_ne k 0 with hk0 | hk0
        · subst hk0
          rw [if_neg hk2, if_neg hk1, if_pos (by omega : (0 : Nat) = 0),
            if_pos (by omega : (0 : Nat) = 0)]
        rcases le_or_lt k done.length with hkd | hkd
        · rw [if_neg hk2, if_neg hk1, if_neg hk0, if_pos hkd,
            if_neg hk0, if_pos (by omega : k < done.length + 2),
            List.getD_append _ _ _ _ (by omega)]
        · rw [if_neg hk2, if_neg hk1, if_neg hk0, if_neg (by omega : ¬ k ≤ done.length),
            if_neg (by omega : ¬ k ≤ done.length + 2),
            if_neg hk0, if_neg (by omega : ¬ k < done.length + 2), if_neg hk2]
      · rfl
      · dsimp only [PageManage.updatePage, loopSt, chainFinalSt]
        have hlen2 : (done ++ [lp, d]).length = done.length + 2 := by simp
        rw [hlen2]
      · rfl
    · -- more than a tail page fits: allocate the next link and recurse
      have hput : OverflowPage.put_data { data := [], next := none } d
          = { data := d.take OVERFLOWED_OVERFLOWPAGE_AVAILABLE_SIZE, next := none } := by
        unfold OverflowPage.put_data
        rw [if_pos (by omega)]
      rw [hput]
      dsimp only
      have htk : (d.take OVERFLOWED_OVERFLOWPAGE_AVAILABLE_SIZE).length
          = OVERFLOWED_OVERFLOWPAGE_AVAILABLE_SIZE := by
        rw [List.length_take]
        simp only [OVERFLOWED_OVERFLOWPAGE_AVAILABLE_SIZE, OVERFLOWPAGE_AVAILABLE_SIZE,
          PAGE_SIZE] at *
        omega
      rw [htk]
      have hd1ne : d.drop OVERFLOWED_OVERFLOWPAGE_AVAILABLE_SIZE ≠ [] := by
        intro hc
        have hcl := congrArg List.length hc
        simp only [List.length_drop, List.length_nil] at hcl
        simp only [OVERFLOWED_OVERFLOWPAGE_AVAILABLE_SIZE, OVERFLOWPAGE_AVAILABLE_SIZE,
          PAGE_SIZE] at *
        omega
      rw [if_neg (by simp only [List.isEmpty_eq_true]; exact hd1ne)]
      have hlen1 : 0 < (overflowChunks (d.drop OVERFLOWED_OVERFLOWPAGE_AVAILABLE_SIZE)).length :=
        List.length_pos.mpr (overflowChunks_ne_nil _)
      have hchunks : overflowChunks d
          = d.take OVERFLOWED_OVERFLOWPAGE_AVAILABLE_SIZE
            :: overflowChunks (d.drop OVERFLOWED_OVERFLOWPAGE_AVAILABLE_SIZE) :=
        overflowChunks_big d hbig
      have hlen : (overflowChunks d).length
          = (overflowChunks (d.drop OVERFLOWED_OVERFLOWPAGE_AVAILABLE_SIZE)).length + 1 := by
        rw [hchunks, List.length_cons]
      rw [PageManage.alloc_bm _ .overflowPage (fuel + 1) (done.length + 3)
        (by dsimp only [PageManage.updatePage]
            rw [if_neg (by omega), loopSt_pages_bitmap])
        (by omega) (by omega)
        (by dsimp only [PageManage.updatePage, loopSt]
            rw [List.length_range]
            omega)
        (by omega)]
      dsimp only
      have hstC :
          ({ pages := fun k =>
               if k = done.length + 3 then some (Page.new (done.length + 3) PageType.overflowPage)
               else
                 if k = 0 then some (bmPageN (done.length + 3 + 1))
                 else
                   ((loopSt C done).updatePage (done.length + 1) fun p =>
                         p.modifyData ({ data := lp, next := some (done.length + 2) } : OverflowPage).dump).pages
                     k,
             cache_size :=
               ((loopSt C done).updatePage (done.length + 1) fun p =>
                   p.modifyData ({ data := lp, next := some (done.length + 2) } : OverflowPage).dump).cache_size,
             cache_pages :=
               ((loopSt C done).updatePage (done.length + 1) fun p =>
                     p.modifyData ({ data := lp, next := some (done.length + 2) } : OverflowPage).dump).cache_pages ++
                 [done.length + 3],
             device :=
               ((loopSt C done).updatePage (done.length + 1) fun p =>
                   p.modifyData ({ data := lp, next := some (done.length + 2) } : OverflowPage).dump).device }
            : PageManage)
          = loopSt C (done ++ [lp]) := by
        have hlen3 : (done ++ [lp]).length = done.length + 1 := by simp
        apply PageManage.eqOfParts
        · funext k
          dsimp only [PageManage.updatePage, loopSt]
          rw [hlen3]
          rcases eq_or_ne k (done.length + 3) with hk3 | hk3
          · subst hk3
            rw [if_pos (by omega : done.length + 3 = done.length + 3),
              if_neg (by omega : ¬ done.length + 3 = 0),
              if_neg (by omega : ¬ done.length + 3 ≤ done.length + 1),
              if_pos (by omega : done.length + 3 ≤ done.length + 1 + 2)]
          rcases eq_or_ne k 0 with hk0 | hk0
          · subst hk0
            rw [if_neg hk3, if_pos (by omega : (0 : Nat) = 0),
              if_pos (by omega : (0 : Nat) = 0)]
          rcases eq_or_ne k (done.length + 1) with hk1 | hk1
          · subst hk1
            rw [if_neg hk3, if_neg hk0,
              if_pos (by omega : done.length + 1 = done.length + 1),
              if_neg hk0,
              if_neg (by omega : ¬ done.length + 1 ≤ done.length),
              if_pos (by omega : done.length + 1 ≤ done.length + 2),
              Option.map,
              if_neg hk0, if_pos (by omega : done.length + 1 ≤ done.length + 1),
              List.getD_append_right _ _ _ _ (by omega),
              show done.length + 1 - 1 - done.length = 0 from by omega]
            rfl
          rcases le_or_lt k done.length with hkd | hkd
          · rw [if_neg hk3, if_neg hk0, if_neg hk1, if_neg hk0, if_pos hkd,
              if_neg hk0, if_pos (by omega : k ≤ done.length + 1),
              List.getD_append _ _ _ _ (by omega)]
          rcases eq_or_ne k (done.length + 2) with hk2 | hk2
          · subst hk2
            rw [if_neg hk3, if_neg hk0, if_neg hk1, if_neg hk0,
              if_neg (by omega : ¬ done.length + 2 ≤ done.length),
              if_pos (by omega : done.length + 2 ≤ done.length + 2),
              if_neg hk0,
              if_neg (by omega : ¬ done.length + 2 ≤ done.length + 1),
              if_pos (by omega : done.length + 2 ≤ done.length + 1 + 2)]
          · rw [if_neg hk3, if_neg hk0, if_neg hk1, if_neg hk0,
              if_neg (by omega : ¬ k ≤ done.length),
              if_neg (by omega : ¬ k ≤ done.length + 2),
              if_neg hk0,
              if_neg (by omega : ¬ k ≤ done.length + 1),
              if_neg (by omega : ¬ k ≤ done.length + 1 + 2)]
        · rfl
        · dsimp only [PageManage.updatePage, loopSt]
          rw [hlen3]
          simp [List.range_succ]
        · rfl
      rw [hstC]
      have hIH := ih (d.drop OVERFLOWED_OVERFLOWPAGE_AVAILABLE_SIZE) (done ++ [lp])
        (d.take OVERFLOWED_OVERFLOWPAGE_AVAILABLE_SIZE) hd1ne
        (by simp only [List.length_append, List.length_cons, List.length_nil]; omega)
        (by simp only [List.length_append, List.length_cons, List.length_nil]; omega)
        (by omega)
      rw [show (done ++ [lp]).length = done.length + 1 from by simp] at hIH
      rw [List.append_assoc, List.singleton_append] at hIH
      rw [hchunks]
      exact hIH




set_option maxRecDepth 40000 in
/-- The chain pages of a completed from_bytes write read back as the
chunk list: every link before the last points to its successor and the
last link has no next pointer. -/
theorem readChain_chainFinal (C : Nat) (allD : List (List Nat))
    (hb : ∀ ch ∈ allD, ∀ b ∈ ch, b < 256)
    (hnl : ∀ x ∈ allD.dropLast, x.length = OVERFLOWED_OVERFLOWPAGE_AVAILABLE_SIZE)
    (hall : ∀ x ∈ allD, x.length ≤ OVERFLOWPAGE_AVAILABLE_SIZE)
    (hroom : allD.length < 2 ^ 64) :
    ∀ fuel k, 1 ≤ k → k ≤ allD.length → allD.length - k + 1 ≤ fuel →
      (chainFinalSt C allD).readChain fuel k = some (allD.drop (k - 1)) := by
  intro fuel
  induction fuel with
  | zero =>
    intro k h1 h2 h3
    omega
  | succ fuel ih =>
    intro k h1 h2 h3
    unfold PageManage.readChain
    have hmem : allD.getD (k - 1) [] ∈ allD := by
      rw [List.getD_eq_getElem _ _ (by omega)]
      exact List.getElem_mem _
    have hdk : allD.drop (k - 1) = allD.getD (k - 1) [] :: allD.drop k := by
      rw [List.getD_eq_getElem _ _ (by omega)]
      rw [List.drop_eq_getElem_cons (by omega : k - 1 < allD.length)]
      rw [show k - 1 + 1 = k from by omega]
    rcases eq_or_ne k allD.length with hlast | hlast
    · have hp : (chainFinalSt C allD).pages k
          = some { page_type := .overflowPage, count := k, syncd := false,
                   data := OverflowPage.dump { data := allD.getD (k - 1) [], next := none } } := by
        unfold chainFinalSt
        dsimp only
        rw [if_neg (by omega), if_neg (by omega), if_pos hlast]
        rfl
      rw [hp]
      dsimp only
      have hload := OverflowPage.loadDumpOv { data := allD.getD (k - 1) [], next := none }
        (hb _ hmem)
        (by simp only [Option.isSome_none, Bool.false_eq_true, if_false]
            exact hall _ hmem)
        (by simp)
      rw [hload]
      dsimp only
      rw [hdk, hlast, List.drop_length]
    · have hp : (chainFinalSt C allD).pages k
          = some { page_type := .overflowPage, count := k, syncd := false,
                   data := OverflowPage.dump
                     { data := allD.getD (k - 1) [], next := some (k + 1) } } := by
        unfold chainFinalSt
        dsimp only
        rw [if_neg (by omega), if_pos (by omega)]
        rfl
      rw [hp]
      dsimp only
      have hmem' : allD.getD (k - 1) [] ∈ allD.dropLast := by
        rw [List.getD_eq_getElem _ _ (by omega)]
        rw [← List.getElem_dropLast allD (k - 1) (by rw [List.length_dropLast]; omega)]
        exact List.getElem_mem _
      have hload := OverflowPage.loadDumpOv { data := allD.getD (k - 1) [], next := some (k + 1) }
        (hb _ hmem)
        (by simp only [Option.isSome_some, if_true]
            rw [hnl _ hmem'])
        (by intro nx hnx
            simp only [Option.mem_def, Option.some.injEq] at hnx
            omega)
      rw [hload]
      dsimp only
      rw [ih (k + 1) (by omega) (by omega) (by omega)]
      dsimp only [Option.map]
      rw [hdk]
      congr 2

set_option maxRecDepth 40000 in
/-- ContentEntry::from_bytes on an oversized payload from a fresh
store: the entry keeps the first PAGE_SIZE - 12 bytes inline and the
chain pages written are exactly the overflowChunks of the remainder,
starting at the first allocated count 1. -/
theorem from_bytes_overflow_fresh (d : List Nat) (C fuel : Nat)
    (hC : d.length / OVERFLOWED_OVERFLOWPAGE_AVAILABLE_SIZE + 16 ≤ C)
    (hfuel : d.length / OVERFLOWED_OVERFLOWPAGE_AVAILABLE_SIZE + 16 ≤ fuel)
    (hd : d.length ≤ 100000000)
    (hb5 : PAGE_SIZE - 5 < d.length) :
    ContentEntry.from_bytes (emptySt C) d fuel
        = (.ok { data := d.take (PAGE_SIZE - 12), overflow_page := some 1 },
           chainFinalSt C (overflowChunks (d.drop (PAGE_SIZE - 12)))) := by
  have hC2 : d.length / 4085 + 16 ≤ C := by
    simpa only [OVERFLOWED_OVERFLOWPAGE_AVAILABLE_SIZE, PAGE_SIZE] using hC
  have hfuel2 : d.length / 4085 + 16 ≤ fuel := by
    simpa only [OVERFLOWED_OVERFLOWPAGE_AVAILABLE_SIZE, PAGE_SIZE] using hfuel
  have hb52 : 4091 < d.length := by
    have := hb5
    simp only [PAGE_SIZE] at this
    omega
  clear hC hfuel
  unfold ContentEntry.from_bytes
  rw [if_pos hb5]
  rw [PageManage.alloc_fresh C .overflowPage fuel (by omega) (by omega)]
  dsimp only
  obtain ⟨f, rfl⟩ : ∃ f, fuel = f + 1 := ⟨fuel - 1, by omega⟩
  rw [fromBytesLoop_succ]
  dsimp only [Option.map]
  rw [show (Page.new 1 PageType.overflowPage).count = 1 from rfl]
  rcases le_or_lt (List.drop (PAGE_SIZE - 12) d).length OVERFLOWPAGE_AVAILABLE_SIZE with hsm | hbg
  · rw [show OverflowPage.put_data { data := [], next := none } (List.drop (PAGE_SIZE - 12) d)
        = { data := List.drop (PAGE_SIZE - 12) d, next := none } from by
      unfold OverflowPage.put_data
      rw [if_neg (by omega)]]
    dsimp only
    rw [List.drop_length]
    rw [if_pos (show ([] : List Nat).isEmpty = true from rfl)]
    rw [PageManage.modify_hit _ _ _ (by rfl)]
    dsimp only
    rw [Prod.mk.injEq]
    refine ⟨rfl, ?_⟩
    rw [overflowChunks_small _ hsm]
    apply PageManage.eqOfParts
    · funext k
      dsimp only [PageManage.updatePage, chainFinalSt]
      rcases eq_or_ne k 1 with hk1 | hk1
      · subst hk1
        rfl
      rcases eq_or_ne k 0 with hk0 | hk0
      · subst hk0
        rfl
      · rw [if_neg hk1, if_neg hk1, if_neg hk0, if_neg hk0,
          if_neg (show ¬ k < [List.drop (PAGE_SIZE - 12) d].length from by
            simp only [List.length_cons, List.length_nil]
            omega),
          if_neg (show ¬ k = [List.drop (PAGE_SIZE - 12) d].length from by
            simp only [List.length_cons, List.length_nil]
            omega)]
    · rfl
    · rfl
    · rfl
  · rw [show OverflowPage.put_data { data := [], next := none } (List.drop (PAGE_SIZE - 12) d)
        = { data := (List.drop (PAGE_SIZE - 12) d).take OVERFLOWED_OVERFLOWPAGE_AVAILABLE_SIZE,
            next := none } from by
      unfold OverflowPage.put_data
      rw [if_pos (by omega)]]
    dsimp only
    rw [show ((List.drop (PAGE_SIZE - 12) d).take OVERFLOWED_OVERFLOWPAGE_AVAILABLE_SIZE).length
        = OVERFLOWED_OVERFLOWPAGE_AVAILABLE_SIZE from by
      rw [List.length_take]
      apply Nat.min_eq_left
      simp only [OVERFLOWED_OVERFLOWPAGE_AVAILABLE_SIZE, OVERFLOWPAGE_AVAILABLE_SIZE,
        PAGE_SIZE] at hbg ⊢
      omega]
    have hd1ne : (List.drop (PAGE_SIZE - 12) d).drop OVERFLOWED_OVERFLOWPAGE_AVAILABLE_SIZE
        ≠ [] := by
      intro hc
      have hcl := congrArg List.length hc
      have hbg2 := hbg
      simp only [List.length_drop, List.length_nil, OVERFLOWED_OVERFLOWPAGE_AVAILABLE_SIZE,
        OVERFLOWPAGE_AVAILABLE_SIZE, PAGE_SIZE] at hcl hbg2
      omega
    rw [if_neg (by simp only [List.isEmpty_eq_true]; exact hd1ne)]
    rw [PageManage.alloc_bm _ .overflowPage (f + 1) 2 (by rfl) (by omega)
      (by simp only [BITMAP_MANAGED_SIZE, PAGE_SIZE]; omega)
      (by simp only [List.length_cons, List.length_nil]; omega)
      (by omega)]
    dsimp only
    rw [show (Page.new 2 PageType.overflowPage).count = 2 from rfl]
    rw [show ({ pages := (fun k =>
                  if k = 2 then some (Page.new 2 PageType.overflowPage)
                  else
                    if k = 0 then some (bmPageN (2 + 1))
                    else
                      if k = 1 then some (Page.new 1 PageType.overflowPage)
                      else if k = 0 then some (bmPageN 2) else none),
                cache_size := C,
                cache_pages := [0, 1] ++ [2],
                device := (fun _ => none) } : PageManage) = loopSt C [] from by
      apply PageManage.eqOfParts
      · funext k
        simp only [loopSt, List.length_nil]
        rcases eq_or_ne k 0 with hk0 | hk0
        · subst hk0
          rfl
        rcases eq_or_ne k 1 with hk1 | hk1
        · subst hk1
          rfl
        rcases eq_or_ne k 2 with hk2 | hk2
        · subst hk2
          rfl
        · rw [if_neg hk2, if_neg hk0, if_neg hk1, if_neg hk0, if_neg hk0,
            if_neg (show ¬ k ≤ 0 from by omega),
            if_neg (show ¬ k ≤ 0 + 2 from by omega)]
      · rfl
      · rfl
      · rfl]
    have hloop := fromBytesLoop_chain C f
      ((List.drop (PAGE_SIZE - 12) d).drop OVERFLOWED_OVERFLOWPAGE_AVAILABLE_SIZE) []
      ((List.drop (PAGE_SIZE - 12) d).take OVERFLOWED_OVERFLOWPAGE_AVAILABLE_SIZE)
      hd1ne
      (by
        have hlb := overflowChunks_length_le
          ((List.drop (PAGE_SIZE - 12) d).drop OVERFLOWED_OVERFLOWPAGE_AVAILABLE_SIZE)
        simp only [List.length_drop, List.length_nil, OVERFLOWED_OVERFLOWPAGE_AVAILABLE_SIZE,
          OVERFLOWPAGE_AVAILABLE_SIZE, PAGE_SIZE] at hlb ⊢
        omega)
      (by
        have hlb := overflowChunks_length_le
          ((List.drop (PAGE_SIZE - 12) d).drop OVERFLOWED_OVERFLOWPAGE_AVAILABLE_SIZE)
        simp only [List.length_drop, List.length_nil, OVERFLOWED_OVERFLOWPAGE_AVAILABLE_SIZE,
          OVERFLOWPAGE_AVAILABLE_SIZE, PAGE_SIZE, BITMAP_MANAGED_SIZE] at hlb ⊢
        omega)
      (by
        have hlb := overflowChunks_length_le
          ((List.drop (PAGE_SIZE - 12) d).drop OVERFLOWED_OVERFLOWPAGE_AVAILABLE_SIZE)
        simp only [List.length_drop, List.length_nil, OVERFLOWED_OVERFLOWPAGE_AVAILABLE_SIZE,
          OVERFLOWPAGE_AVAILABLE_SIZE, PAGE_SIZE] at hlb ⊢
        omega)
    simp only [List.length_nil, Nat.zero_add, List.nil_append] at hloop
    rw [hloop]
    dsimp only
    rw [Prod.mk.injEq]
    refine ⟨rfl, ?_⟩
    rw [overflowChunks_big _ hbg]

set_option maxRecDepth 40000 in
/-- Claim C5 (confirmed, over a freshly opened store with enough cache
room and fuel): ContentEntry::from_bytes keeps a payload of up to
PAGE_SIZE - 5 bytes entirely inline with no overflow page and leaves
the store untouched; a longer payload keeps exactly its first
PAGE_SIZE - 12 bytes inline, points at overflow page 1, and chains the
remainder across overflow pages whose in-order contents read back as
overflowChunks of the remainder (each link pointing at the next, the
tail pointing nowhere), where every non-tail chunk holds exactly
PAGE_SIZE - 11 bytes, every chunk fits the PAGE_SIZE - 3 tail bound,
and the chunks reassemble to the remainder; a payload of exactly
PAGE_SIZE - 4 bytes yields a single tail chunk. -/
theorem C5_from_bytes_chunking (d : List Nat) (C fuel : Nat)
    (hb : ∀ b ∈ d, b < 256)
    (hC : d.length / OVERFLOWED_OVERFLOWPAGE_AVAILABLE_SIZE + 16 ≤ C)
    (hfuel : d.length / OVERFLOWED_OVERFLOWPAGE_AVAILABLE_SIZE + 16 ≤ fuel)
    (hd : d.length ≤ 100000000) :
    (d.length ≤ PAGE_SIZE - 5 →
      ContentEntry.from_bytes (emptySt C) d fuel
        = (.ok { data := d, overflow_page := none }, emptySt C)) ∧
    (PAGE_SIZE - 5 < d.length →
      ContentEntry.from_bytes (emptySt C) d fuel
          = (.ok { data := d.take (PAGE_SIZE - 12), overflow_page := some 1 },
             chainFinalSt C (overflowChunks (d.drop (PAGE_SIZE - 12))))
        ∧ (chainFinalSt C (overflowChunks (d.drop (PAGE_SIZE - 12)))).readChain fuel 1
            = some (overflowChunks (d.drop (PAGE_SIZE - 12)))) ∧
    (∀ x ∈ (overflowChunks (d.drop (PAGE_SIZE - 12))).dropLast,
      x.length = OVERFLOWED_OVERFLOWPAGE_AVAILABLE_SIZE) ∧
    (∀ x ∈ overflowChunks (d.drop (PAGE_SIZE - 12)), x.length ≤ OVERFLOWPAGE_AVAILABLE_SIZE) ∧
    ((overflowChunks (d.drop (PAGE_SIZE - 12))).flatten = d.drop (PAGE_SIZE - 12)) ∧
    (d.length = PAGE_SIZE - 4 →
      overflowChunks (d.drop (PAGE_SIZE - 12)) = [d.drop (PAGE_SIZE - 12)]) := by
  refine ⟨?_, ?_, overflowChunks_nonlast_len _, overflowChunks_len_le _,
    overflowChunks_flatten _, ?_⟩
  · intro h
    unfold ContentEntry.from_bytes
    rw [if_neg (by omega)]
  · intro hb5
    refine ⟨from_bytes_overflow_fresh d C fuel hC hfuel hd hb5, ?_⟩
    have hbc : ∀ ch ∈ overflowChunks (d.drop (PAGE_SIZE - 12)), ∀ b ∈ ch, b < 256 := by
      intro ch hch b hbm
      have hfl : b ∈ (overflowChunks (d.drop (PAGE_SIZE - 12))).flatten :=
        List.mem_flatten.mpr ⟨ch, hch, hbm⟩
      rw [overflowChunks_flatten] at hfl
      exact hb b (List.mem_of_mem_drop hfl)
    have hN := overflowChunks_length_le (d.drop (PAGE_SIZE - 12))
    have hN1 : 0 < (overflowChunks (d.drop (PAGE_SIZE - 12))).length :=
      List.length_pos.mpr (overflowChunks_ne_nil _)
    have hrc := readChain_chainFinal C (overflowChunks (d.drop (PAGE_SIZE - 12))) hbc
      (overflowChunks_nonlast_len _) (overflowChunks_len_le _)
      (by
        simp only [List.length_drop, OVERFLOWED_OVERFLOWPAGE_AVAILABLE_SIZE,
          OVERFLOWPAGE_AVAILABLE_SIZE, PAGE_SIZE] at hN ⊢
        omega)
      fuel 1 le_rfl hN1
      (by
        have hfuel2 := hfuel
        simp only [List.length_drop, OVERFLOWED_OVERFLOWPAGE_AVAILABLE_SIZE,
          OVERFLOWPAGE_AVAILABLE_SIZE, PAGE_SIZE] at hN hfuel2 ⊢
        omega)
    simpa using hrc
  · intro h
    apply overflowChunks_small
    rw [List.length_drop]
    simp only [OVERFLOWPAGE_AVAILABLE_SIZE, PAGE_SIZE] at *
    omega

theorem C5_from_bytes_chunking_witness :
    (∀ b ∈ dW5, b < 256) ∧
    (dW5.length / OVERFLOWED_OVERFLOWPAGE_AVAILABLE_SIZE + 16 ≤ 100) ∧
    (dW5.length ≤ 100000000) ∧
    ((dW5.length ≤ PAGE_SIZE - 5 →
      ContentEntry.from_bytes (emptySt 100) dW5 100
        = (.ok { data := dW5, overflow_page := none }, emptySt 100)) ∧
     (PAGE_SIZE - 5 < dW5.length →
      ContentEntry.from_bytes (emptySt 100) dW5 100
          = (.ok { data := dW5.take (PAGE_SIZE - 12), overflow_page := some 1 },
             chainFinalSt 100 (overflowChunks (dW5.drop (PAGE_SIZE - 12))))
        ∧ (chainFinalSt 100 (overflowChunks (dW5.drop (PAGE_SIZE - 12)))).readChain 100 1
            = some (overflowChunks (dW5.drop (PAGE_SIZE - 12)))) ∧
     (∀ x ∈ (overflowChunks (dW5.drop (PAGE_SIZE - 12))).dropLast,
       x.length = OVERFLOWED_OVERFLOWPAGE_AVAILABLE_SIZE) ∧
     (∀ x ∈ overflowChunks (dW5.drop (PAGE_SIZE - 12)),
       x.length ≤ OVERFLOWPAGE_AVAILABLE_SIZE) ∧
     ((overflowChunks (dW5.drop (PAGE_SIZE - 12))).flatten = dW5.drop (PAGE_SIZE - 12)) ∧
     (dW5.length = PAGE_SIZE - 4 →
       overflowChunks (dW5.drop (PAGE_SIZE - 12)) = [dW5.drop (PAGE_SIZE - 12)])) :=
  ⟨(by
      intro b hbm
      rw [dW5] at hbm
      have := List.eq_of_mem_replicate hbm
      omega),
   (by rw [dW5, List.length_replicate]; decide),
   (by rw [dW5, List.length_replicate]; decide),
   C5_from_bytes_chunking dW5 100 100
     (by
       intro b hbm
       rw [dW5] at hbm
       have := List.eq_of_mem_replicate hbm
       omega)
     (by rw [dW5, List.length_replicate]; decide)
     (by rw [dW5, List.length_replicate]; decide)
     (by rw [dW5, List.length_replicate]; decide)⟩
